import Mathlib

/-!
# Verification of the mcrconserver RCON core

A shallow embedding, in Lean 4, of the RCON worker-pool core of the
`mcrconserver` repository, together with proofs of the behavioural claims
made by its specification.

The embedding follows the Python sources:

* `app/src/rconclient/connection.py` — packet codec, `send_command`,
  connection retry loop (`SocketClient`);
* `app/rconclient/packet.py` — the standalone frame decoder
  (`_read_response`, which also parses the packet type);
* `src/backend/rconclient/command.py` — `RCONCommand` settlement and
  `topological_sort`;
* `src/backend/rconclient/worker.py` — the worker loop and the pool
  submission entry points (`queue_command` / `queue_job`).

Bytes are modelled as natural numbers below 256 (`List Nat` for byte
strings); 32-bit machine integers are modelled as `Int` with explicit
reduction modulo `2^32` where the code packs them; response bodies are
kept at the byte level (Python's UTF-8 decode/encode is a bijection
between valid byte sequences and strings, so nothing is lost).
-/

namespace Rcon

/-! ## Little-endian 32-bit integers (`struct.pack "<i"` / `struct.unpack "<i"`) -/

/-- `struct.pack("<i", n)`: the four little-endian bytes of `n` taken
modulo `2^32`.  Python raises for `n` outside `[-2^31, 2^31)`; the
round-trip theorems therefore carry that range as a hypothesis. -/
def i32le (n : Int) : List Nat :=
  let m := (n % (2 ^ 32 : Int)).toNat
  [m % 256, m / 256 % 256, m / 256 ^ 2 % 256, m / 256 ^ 3 % 256]

/-- `struct.unpack("<i", bs)` on four bytes: little-endian value,
reinterpreted as a signed 32-bit integer. -/
def decodeI32 (b0 b1 b2 b3 : Nat) : Int :=
  let m : Nat := b0 + 256 * b1 + 256 ^ 2 * b2 + 256 ^ 3 * b3
  if m < 2 ^ 31 then (m : Int) else (m : Int) - 2 ^ 32

/-- A byte list is valid when every entry is below 256. -/
def ValidBytes (bs : List Nat) : Prop := ∀ b ∈ bs, b < 256

instance : DecidablePred ValidBytes := fun bs =>
  inferInstanceAs (Decidable (∀ b ∈ bs, b < 256))

/-! ## Packet codec

`SocketClient._format_packet` (connection.py) and the two frame parsers:
`SocketClient._read_response` (connection.py, returns id and body) and the
standalone `_read_response` of packet.py (returns id, type and body). -/

/-- The RCON packet types of `command.py` (`RCONPacketType`, an `IntEnum`). -/
inductive RCONPacketType where
  | ERROR_PACKET
  | MULTI_PACKET
  | COMMAND_PACKET
  | AUTH_PACKET
  | DUMMY_PACKET
deriving DecidableEq

/-- The integer value of each packet type, as declared in the enum. -/
def RCONPacketType.value : RCONPacketType → Int
  | .ERROR_PACKET => -1
  | .MULTI_PACKET => 0
  | .COMMAND_PACKET => 2
  | .AUTH_PACKET => 3
  | .DUMMY_PACKET => 200

/-- `request id (4) + packet type (4) + 2 null bytes (2)` (`_PACKET_METADATA_SIZE`). -/
def PACKET_METADATA_SIZE : Nat := 10

/-- `SocketClient._format_packet`: length prefix (body length + 10),
request id, packet type, body, two null bytes.  The `payload` is the
UTF-8 byte encoding of the Python string argument. -/
def format_packet (payload : List Nat) (packet_type : RCONPacketType)
    (request_id : Int) : List Nat :=
  i32le (payload.length + PACKET_METADATA_SIZE)
    ++ i32le request_id
    ++ i32le packet_type.value
    ++ payload
    ++ [0, 0]

/-- Errors a read can produce: a short read (`readexactly` hitting EOF /
`IncompleteReadError`), or a malformed length field (`struct.unpack` on
fewer than four bytes, `readexactly` of a negative count). -/
inductive ReadError where
  | incompleteRead
  | malformed
deriving DecidableEq

/-- `SocketClient._read_response` (connection.py): read 4 length bytes,
then exactly `length` bytes; the response id is the first four of those,
the body is `response_bytes[8:-2]`.  Returns the parsed frame together
with the bytes left unread on the stream. -/
def read_response (reader : List Nat) :
    Except ReadError ((Int × List Nat) × List Nat) :=
  if reader.length < 4 then .error .incompleteRead
  else
    let lb := reader.take 4
    let response_length := decodeI32 (lb.getD 0 0) (lb.getD 1 0) (lb.getD 2 0) (lb.getD 3 0)
    let rest := reader.drop 4
    if response_length < 0 then .error .malformed
    else if rest.length < response_length.toNat then .error .incompleteRead
    else
      let response_bytes := rest.take response_length.toNat
      if response_bytes.length < 4 then .error .malformed
      else
        let response_id := decodeI32 (response_bytes.getD 0 0) (response_bytes.getD 1 0)
          (response_bytes.getD 2 0) (response_bytes.getD 3 0)
        let response_body := (response_bytes.take (response_bytes.length - 2)).drop 8
        .ok ((response_id, response_body), rest.drop response_length.toNat)

/-- `_read_response` of packet.py: identical wire parsing, but the packet
type (bytes 4..8 of the payload) is parsed and returned as well. -/
def packet_read_response (reader : List Nat) :
    Except ReadError ((Int × Int × List Nat) × List Nat) :=
  if reader.length < 4 then .error .incompleteRead
  else
    let lb := reader.take 4
    let response_length := decodeI32 (lb.getD 0 0) (lb.getD 1 0) (lb.getD 2 0) (lb.getD 3 0)
    let rest := reader.drop 4
    if response_length < 0 then .error .malformed
    else if rest.length < response_length.toNat then .error .incompleteRead
    else
      let response_bytes := rest.take response_length.toNat
      if response_bytes.length < 8 then .error .malformed
      else
        let response_id := decodeI32 (response_bytes.getD 0 0) (response_bytes.getD 1 0)
          (response_bytes.getD 2 0) (response_bytes.getD 3 0)
        let response_type := decodeI32 (response_bytes.getD 4 0) (response_bytes.getD 5 0)
          (response_bytes.getD 6 0) (response_bytes.getD 7 0)
        let response_body := (response_bytes.take (response_bytes.length - 2)).drop 8
        .ok ((response_id, response_type, response_body), rest.drop response_length.toNat)

/-! ## `SocketClient.send_command`

The command packet and the type-200 dummy packet are written, then
frames are read in a loop: id `-1` yields the `None` result, the dummy
id terminates, the request id accumulates a body part, anything else is
ignored.  The reader is modelled as the byte string the server has
scripted; the loop recurses on it (each successful frame read consumes
at least five bytes). -/

/-- Errors `send_command` can raise: `ConnectionError("Client disconnected")`
when the request id is the `-1` sentinel, or a failed frame read. -/
inductive SendError where
  | disconnected
  | read (e : ReadError)
deriving DecidableEq

/-- What a completed `send_command` call did: the returned value (`none`
models Python's `None`), the request id after the increment, and the
bytes written to the socket. -/
structure SendOutcome where
  result : Option (List Nat)
  requestId : Int
  written : List Nat
deriving DecidableEq

/-- The read loop of `send_command`: collect `response_parts` until the
dummy id arrives, return `none` on a `-1` response id, skip other ids. -/
def recv_loop (request_id dummy_request_id : Int) (acc : List (List Nat))
    (reader : List Nat) : Except ReadError (Option (List Nat)) :=
  match h : read_response reader with
  | .error e => .error e
  | .ok ((response_id, response_body), rest) =>
    if response_id = -1 then .ok none
    else if response_id = dummy_request_id then .ok (some acc.flatten)
    else if response_id = request_id then
      recv_loop request_id dummy_request_id (acc ++ [response_body]) rest
    else
      recv_loop request_id dummy_request_id acc rest
termination_by reader.length
decreasing_by
  all_goals
    simp only [read_response] at h
    split_ifs at h with h1 h2 h3 h4
    simp only [Except.ok.injEq, Prod.mk.injEq] at h
    obtain ⟨-, hrest⟩ := h
    rw [← hrest]
    simp only [List.length_drop]
    omega

/-- `SocketClient.send_command`: fail on the disconnected sentinel,
increment the request id, write the command packet and the inline dummy
packet (empty body, type 200, id `request_id + 1000`), then run the read
loop. -/
def send_command (request_id : Int) (command : List Nat) (reader : List Nat) :
    Except SendError SendOutcome :=
  if request_id = -1 then .error .disconnected
  else
    let new_request_id := request_id + 1
    let command_packet := format_packet command .COMMAND_PACKET new_request_id
    let dummy_request_id := new_request_id + 1000
    let dummy_packet :=
      i32le (PACKET_METADATA_SIZE : Nat) ++ i32le dummy_request_id
        ++ i32le RCONPacketType.DUMMY_PACKET.value ++ ([] : List Nat) ++ [0, 0]
    match recv_loop new_request_id dummy_request_id [] reader with
    | .error e => .error (.read e)
    | .ok res => .ok ⟨res, new_request_id, command_packet ++ dummy_packet⟩

/-- A scripted server response: the concatenation of one encoded frame
per `(response_id, body)` pair.  Responses from the Minecraft server use
packet type 0 (`MULTI_PACKET`). -/
def encodeFrames (frames : List (Int × List Nat)) : List Nat :=
  (frames.map fun f => format_packet f.2 .MULTI_PACKET f.1).flatten

/-- A frame a Python server could actually have produced: the id fits in
a signed 32-bit integer, the bytes are bytes, and the length field fits. -/
def ValidFrame (f : Int × List Nat) : Prop :=
  -2 ^ 31 ≤ f.1 ∧ f.1 < 2 ^ 31 ∧ ValidBytes f.2 ∧ f.2.length + 10 < 2 ^ 31

instance : DecidablePred ValidFrame := fun f =>
  inferInstanceAs (Decidable (_ ∧ _ ∧ _ ∧ _))

/-- Reference reassembly over decoded frames, mirroring the claimed loop
semantics: `some none` is the `None` return on a `-1` id, `some (some s)`
is a normal return, `none` means the script ran out before a terminator
(the real loop would hit end-of-stream). -/
def reassemble (request_id dummy_request_id : Int) (acc : List (List Nat)) :
    List (Int × List Nat) → Option (Option (List Nat))
  | [] => none
  | (i, b) :: rest =>
    if i = -1 then some none
    else if i = dummy_request_id then some (some acc.flatten)
    else if i = request_id then reassemble request_id dummy_request_id (acc ++ [b]) rest
    else reassemble request_id dummy_request_id acc rest

/-! ## `RCONCommand` settlement (command.py)

The `result` field is `None` for fire-and-forget commands; otherwise it
is a single-assignment `Future`.  `completion` is an `asyncio.Event`.
`set_command_result` / `set_command_error` update both only when the
future exists and is not yet done. -/

/-- A terminal outcome stored in the future: `set_result` or `set_exception`. -/
inductive Outcome where
  | result (s : String)
  | error (e : String)
deriving DecidableEq

/-- The observable settlement state of one `RCONCommand`: `result = none`
models a command created without a future; `some none` a pending future;
`some (some o)` a done future holding `o`.  `completion` is the event flag. -/
structure CommandState where
  result : Option (Option Outcome)
  completion : Bool
deriving DecidableEq

/-- `RCONCommand.set_command_result`. -/
def set_command_result (st : CommandState) (r : String) : CommandState :=
  match st.result with
  | some none => { result := some (some (.result r)), completion := true }
  | _ => st

/-- `RCONCommand.set_command_error`. -/
def set_command_error (st : CommandState) (e : String) : CommandState :=
  match st.result with
  | some none => { result := some (some (.error e)), completion := true }
  | _ => st

/-- One external call into the settlement interface. -/
inductive SettleOp where
  | setResult (s : String)
  | setError (e : String)

/-- Apply one settlement call. -/
def applySettle (st : CommandState) : SettleOp → CommandState
  | .setResult s => set_command_result st s
  | .setError e => set_command_error st e

/-- Apply a sequence of settlement calls, oldest first. -/
def applySettles (st : CommandState) (ops : List SettleOp) : CommandState :=
  ops.foldl applySettle st

/-- A command is settled when its future exists and is done. -/
def IsSettled (st : CommandState) : Prop := ∃ o, st.result = some (some o)

/-- A freshly created command: completion unset; the future, when present,
is pending. -/
def InitialCommand (st : CommandState) : Prop :=
  st.completion = false ∧ (st.result = none ∨ st.result = some none)

/-! ## `SocketClient._try_connection` (connection.py)

The environment is a function telling whether the `attempt`-th call to
`asyncio.open_connection` succeeds; `fuel` bounds how many loop
iterations we observe (the Python loop is unbounded). -/

/-- `SocketClientConfig.INFINITE`: the unlimited retry budget sentinel. -/
def INFINITE : Int := -1

/-- Python truthiness of the `reconnect_pause` value. -/
def pauseTruthy : Option Int → Bool
  | none => false
  | some p => p ≠ 0

/-- Observed outcome of the `_try_connection` loop after at most `fuel`
iterations: a connection on some attempt, `ConnectionError` after
exhausting a finite budget, or still looping. -/
inductive TryConnResult where
  | connected (attempt : Nat) (sleeps : Nat)
  | connectionFailed (attempts : Nat) (sleeps : Nat)
  | running (attempt : Nat) (sleeps : Nat)
deriving DecidableEq

/-- The `while True` loop of `_try_connection`: sleep `reconnect_pause`
before every attempt but the first (when the pause is truthy), try to
connect, and on failure stop with `ConnectionError` once a finite budget
is exceeded.  `attempt` and `sleeps` carry the loop state. -/
def try_connection_loop (num_retries : Int) (pause : Option Int)
    (succeeds : Nat → Bool) : Nat → Nat → Nat → TryConnResult
  | attempt, sleeps, 0 => .running attempt sleeps
  | attempt, sleeps, fuel + 1 =>
    let sleeps' := if attempt > 0 ∧ pauseTruthy pause then sleeps + 1 else sleeps
    if succeeds attempt then .connected attempt sleeps'
    else
      let attempt' := attempt + 1
      if num_retries ≠ INFINITE ∧ (attempt' : Int) > num_retries then
        .connectionFailed attempt' sleeps'
      else
        try_connection_loop num_retries pause succeeds attempt' sleeps' fuel

/-- `_try_connection`, from the initial loop state. -/
def try_connection (num_retries : Int) (pause : Option Int)
    (succeeds : Nat → Bool) (fuel : Nat) : TryConnResult :=
  try_connection_loop num_retries pause succeeds 0 0 fuel

/-! ## `RCONCommand.topological_sort` (command.py)

Commands are identified by their `command_id`; `Graph` is the object
heap, mapping an id to the `command_id`s of that command's
`dependencies` list.  The heap may hold commands that are not part of
the collection passed to the sort — the DFS follows object references,
so it can visit them regardless.  The recursion is given explicit fuel;
`sortFuel` is large enough that the fuel can never run out (proved
below), matching the always-terminating Python recursion. -/

/-- The object heap: `command_id ↦ command_id`s of the dependencies. -/
abbrev Graph := List (Int × List Int)

/-- The dependency ids of the command with the given id. -/
def depsOf (g : Graph) (i : Int) : List Int := (g.lookup i).getD []

/-- `Edge g u d`: command `u` lists `d` among its dependencies. -/
def Edge (g : Graph) (u d : Int) : Prop := d ∈ depsOf g u

/-- A dependency cycle passing through `v`. -/
def HasCycleThrough (g : Graph) (v : Int) : Prop := Relation.TransGen (Edge g) v v

/-- `l` is topologically ordered: every dependency of every element
appears strictly before that element. -/
def TopoSorted (g : Graph) (l : List Int) : Prop :=
  ∀ pre i post, l = pre ++ i :: post → ∀ d ∈ depsOf g i, d ∈ pre

/-- The mutable state of the sort: the `finished` and `visiting` sets and
the `sorted_commands` output list. -/
structure DfsState where
  finished : List Int
  visiting : List Int
  sorted : List Int
deriving DecidableEq

/-- `ValueError("Duplicate command IDs detected")`,
`ValueError("Cycle detected in command dependencies")`, and the
(unreachable) fuel exhaustion of the embedding. -/
inductive SortError where
  | duplicateId
  | cycleDetected
  | outOfFuel
deriving DecidableEq

/-- The bookkeeping invariant the DFS maintains on its state:
`finished` mirrors `sorted_commands` (as a set, in reverse order), both
are duplicate-free, nothing is both in flight and finished, and the
output so far is topologically ordered. -/
def DfsInv (g : Graph) (st : DfsState) : Prop :=
  st.finished = st.sorted.reverse ∧
  st.sorted.Nodup ∧
  st.visiting.Nodup ∧
  (∀ x ∈ st.visiting, x ∉ st.finished) ∧
  TopoSorted g st.sorted

/-- How many ids of `C` are not on the visiting stack: the measure that
shrinks when the DFS descends. -/
def freshCount (C : List Int) (st : DfsState) : Nat :=
  (C.dedup.filter (fun x => decide (x ∉ st.visiting))).length

mutual
/-- `depth_first_search` inside `topological_sort`. -/
def dfsNode (g : Graph) (fuel : Nat) (st : DfsState) (i : Int) :
    Except SortError DfsState :=
  match fuel with
  | 0 => .error .outOfFuel
  | fuel' + 1 =>
    if i ∈ st.finished then .ok st
    else if i ∈ st.visiting then .error .cycleDetected
    else
      match dfsList g fuel' { st with visiting := i :: st.visiting } (depsOf g i) with
      | .error e => .error e
      | .ok st2 => .ok ⟨i :: st2.finished, st2.visiting.erase i, st2.sorted ++ [i]⟩
termination_by (fuel, 0)

/-- The `for dependency in command.dependencies` loop of the DFS. -/
def dfsList (g : Graph) (fuel : Nat) (st : DfsState) (ds : List Int) :
    Except SortError DfsState :=
  match ds with
  | [] => .ok st
  | d :: ds' =>
    match dfsNode g fuel st d with
    | .error e => .error e
    | .ok st' => dfsList g fuel st' ds'
termination_by (fuel, ds.length + 1)
end

/-- The outer `for command in commands` loop of `topological_sort`. -/
def sortLoop (g : Graph) (fuel : Nat) (st : DfsState) :
    List Int → Except SortError DfsState
  | [] => .ok st
  | c :: cs =>
    if c ∈ st.finished then sortLoop g fuel st cs
    else
      match dfsNode g fuel st c with
      | .error e => .error e
      | .ok st' => sortLoop g fuel st' cs

/-- Every id the DFS can ever encounter: the input ids, the heap's ids,
and every id listed as a dependency. -/
def idUniverse (g : Graph) (order : List Int) : List Int :=
  order ++ g.map (fun p => p.1) ++ (g.map (fun p => p.2)).flatten

/-- Fuel that can never run out: one unit per id occurrence the DFS
could ever reach, plus one. -/
def sortFuel (g : Graph) (order : List Int) : Nat :=
  (idUniverse g order).length + 1

/-- `RCONCommand.topological_sort`: duplicate check over all input ids
(`len(set(ids)) != len(ids)`), then the DFS over the input order. -/
def topological_sort (g : Graph) (order : List Int) :
    Except SortError (List Int) :=
  if ¬ order.Nodup then .error .duplicateId
  else
    match sortLoop g (sortFuel g order) ⟨[], [], []⟩ order with
    | .error e => .error e
    | .ok st => .ok st.sorted

/-! ## Pool submission (`RCONWorkerPool.queue_command` / `queue_job`) -/

/-- The pool state seen by the submission entry points. -/
structure PoolSubmitState where
  queue : List Int
  pool_should_shutdown : Bool
deriving DecidableEq

/-- `RuntimeError("Worker pool is shutting down")` and the wrapped
`ValueError` from a failed sort. -/
inductive PoolError where
  | poolShuttingDown
  | validationError
deriving DecidableEq

/-- `RCONWorkerPool.queue_command`: reject when shutting down, otherwise
`put_nowait`.  The returned state is the pool after the call; the raised
exception, if any, rides along. -/
def queue_command (p : PoolSubmitState) (c : Int) :
    PoolSubmitState × Option PoolError :=
  if p.pool_should_shutdown then (p, some .poolShuttingDown)
  else ({ p with queue := p.queue ++ [c] }, none)

/-- `RCONWorkerPool.queue_job`: reject when shutting down; run
`topological_sort`, re-raising its failure as a `ValueError`; enqueue
every sorted command. -/
def queue_job (p : PoolSubmitState) (g : Graph) (order : List Int) :
    PoolSubmitState × Option PoolError :=
  if p.pool_should_shutdown then (p, some .poolShuttingDown)
  else
    match topological_sort g order with
    | .error _ => (p, some .validationError)
    | .ok sorted => ({ p with queue := p.queue ++ sorted }, none)

/-! ## The worker pool as a transition system (worker.py)

One state holds the shared queue, the phase each worker has reached in
its loop body, the set of commands whose `completion` event is set, the
set of settled commands, and a log of the observable actions.  Each
`Step` constructor is one suspension-point-to-suspension-point segment
of `_worker`. -/

/-- The static data of one command in a job: its text, the indices of
its dependencies in the command table, and whether it has a result
future. -/
structure WCmd where
  text : String
  deps : List Nat
  hasSlot : Bool
deriving DecidableEq

/-- Observable worker actions. -/
inductive Event where
  | write (w : Nat) (c : Nat)
  | taskDone (w : Nat) (c : Nat)
  | settleResult (c : Nat)
  | settleError (c : Nat)
  | reconnect (w : Nat)
deriving DecidableEq

/-- Where one worker stands inside its loop body. -/
inductive WorkerPhase where
  | idle
  | gotCmd (c : Nat)
  | toSend (c : Nat)
  | gotResp (c : Nat) (resp : Option String)
  | gotErr (c : Nat)
  | doneTask (c : Nat) (resp : Option String)
  | doneTaskErr (c : Nat)
  | settledErr (c : Nat)
deriving DecidableEq

/-- The global pool state. -/
structure PoolState where
  queue : List Nat
  workers : List WorkerPhase
  completed : List Nat
  settled : List Nat
  log : List Event
deriving DecidableEq

/-- Replace one worker's phase. -/
def setWorker (s : PoolState) (w : Nat) (ph : WorkerPhase) : PoolState :=
  { s with workers := s.workers.set w ph }

/-- `set_command_result` / `set_command_error` as seen by the pool: when
the command has a future that is not yet done, record the outcome and
set `completion`; otherwise do nothing. -/
def settleCmd (cmds : List WCmd) (s : PoolState) (c : Nat) (ev : Event) :
    PoolState :=
  if (cmds.getD c ⟨"", [], false⟩).hasSlot ∧ c ∉ s.settled then
    { s with settled := c :: s.settled, completed := c :: s.completed,
             log := s.log ++ [ev] }
  else s

/-- The state after the auth-lost branch of the worker loop: the command
is failed with `ConnectionError("RCON authentication failed")` and the
worker goes straight back to `queue.get()`. -/
def authLostNext (cmds : List WCmd) (s : PoolState) (w : Nat) (c : Nat) :
    PoolState :=
  settleCmd cmds (setWorker s w .idle) c (.settleError c)

/-- One atomic segment of `_worker`, for some worker `w`:

* `dequeue` — `command = await queue.get()`;
* `depsReady` — the `asyncio.gather` over the dependency completions
  returns (it can only do so once every dependency's event is set);
* `sendReturn` / `sendRaise` — `client.send_command(command.command)`
  writes the command text to the socket and then either returns a
  response (possibly `None`) or raises `TimeoutError`/`ConnectionError`;
* `taskDoneOk` / `taskDoneErr` — `queue.task_done()` on each path;
* `settleOk` — `command.set_command_result(response)`;
* `settleAuthLost` — the `response is None` branch:
  `command.set_command_error(...)`, then straight back to the loop head;
* `settleErr` then `reconnectStep` — the `except` branch:
  `set_command_error` (when a future exists), `client.reconnect()`,
  `continue`. -/
inductive Step (cmds : List WCmd) : PoolState → PoolState → Prop where
  | dequeue (s : PoolState) (w c : Nat) (rest : List Nat)
      (hw : s.workers[w]? = some .idle) (hq : s.queue = c :: rest) :
      Step cmds s { s with queue := rest, workers := s.workers.set w (.gotCmd c) }
  | depsReady (s : PoolState) (w c : Nat)
      (hw : s.workers[w]? = some (.gotCmd c))
      (hdeps : ∀ d ∈ (cmds.getD c ⟨"", [], false⟩).deps, d ∈ s.completed) :
      Step cmds s (setWorker s w (.toSend c))
  | sendReturn (s : PoolState) (w c : Nat) (resp : Option String)
      (hw : s.workers[w]? = some (.toSend c)) :
      Step cmds s { s with workers := s.workers.set w (.gotResp c resp),
                           log := s.log ++ [.write w c] }
  | sendRaise (s : PoolState) (w c : Nat)
      (hw : s.workers[w]? = some (.toSend c)) :
      Step cmds s { s with workers := s.workers.set w (.gotErr c),
                           log := s.log ++ [.write w c] }
  | taskDoneOk (s : PoolState) (w c : Nat) (resp : Option String)
      (hw : s.workers[w]? = some (.gotResp c resp)) :
      Step cmds s { s with workers := s.workers.set w (.doneTask c resp),
                           log := s.log ++ [.taskDone w c] }
  | settleOk (s : PoolState) (w c : Nat) (r : String)
      (hw : s.workers[w]? = some (.doneTask c (some r))) :
      Step cmds s (settleCmd cmds (setWorker s w .idle) c (.settleResult c))
  | settleAuthLost (s : PoolState) (w c : Nat)
      (hw : s.workers[w]? = some (.doneTask c none)) :
      Step cmds s (settleCmd cmds (setWorker s w .idle) c (.settleError c))
  | taskDoneErr (s : PoolState) (w c : Nat)
      (hw : s.workers[w]? = some (.gotErr c)) :
      Step cmds s { s with workers := s.workers.set w (.doneTaskErr c),
                           log := s.log ++ [.taskDone w c] }
  | settleErr (s : PoolState) (w c : Nat)
      (hw : s.workers[w]? = some (.doneTaskErr c)) :
      Step cmds s (settleCmd cmds (setWorker s w (.settledErr c)) c (.settleError c))
  | reconnectStep (s : PoolState) (w c : Nat)
      (hw : s.workers[w]? = some (.settledErr c)) :
      Step cmds s { s with workers := s.workers.set w .idle,
                           log := s.log ++ [.reconnect w] }

/-- Reachability from an initial state. -/
def Reach (cmds : List WCmd) (s0 s : PoolState) : Prop :=
  Relation.ReflTransGen (Step cmds) s0 s

/-- A pool that has just started: a queued job, all workers idle. -/
def initState (q0 : List Nat) (nw : Nat) : PoolState :=
  { queue := q0, workers := List.replicate nw .idle,
    completed := [], settled := [], log := [] }

/-- Does this event write command `c`? -/
def Event.isWriteOf : Event → Nat → Bool
  | .write _ c', c => c' == c
  | _, _ => false

/-- Is this a reconnect event? -/
def Event.isReconnect : Event → Bool
  | .reconnect _ => true
  | _ => false

/-- How many times command `c`'s text has been written to a socket. -/
def writeCount (log : List Event) (c : Nat) : Nat :=
  (log.filter (Event.isWriteOf · c)).length

/-- How many reconnects the log records. -/
def reconnectCount (log : List Event) : Nat :=
  (log.filter Event.isReconnect).length

/-- Is worker phase `ph` holding command `c` before its socket write? -/
def holdsPre : WorkerPhase → Nat → Bool
  | .gotCmd c', c => c' == c
  | .toSend c', c => c' == c
  | _, _ => false

/-- The dependency indices of command `c` in the job table. -/
def depsW (cmds : List WCmd) (c : Nat) : List Nat :=
  (cmds.getD c ⟨"", [], false⟩).deps

/-- Does command `c` carry a result future? -/
def hasSlotW (cmds : List WCmd) (c : Nat) : Bool :=
  (cmds.getD c ⟨"", [], false⟩).hasSlot

/-- Worker phases at or past the dependency wait for command `c`:
between the `asyncio.gather` returning and the loop head. -/
def PastDepWait (ph : WorkerPhase) (c : Nat) : Prop :=
  ph = .toSend c ∨ (∃ r, ph = .gotResp c r) ∨ ph = .gotErr c ∨
    (∃ r, ph = .doneTask c r) ∨ ph = .doneTaskErr c ∨ ph = .settledErr c

/-! # Theorems -/

/-! ## Codec lemmas -/

theorem i32le_length (n : Int) : (i32le n).length = 4 := rfl

/-- Unpacking the four packed bytes of an in-range integer gives it back. -/
theorem decodeI32_i32le (n : Int) (h1 : -2 ^ 31 ≤ n) (h2 : n < 2 ^ 31)
    (b0 b1 b2 b3 : Nat) (h : i32le n = [b0, b1, b2, b3]) :
    decodeI32 b0 b1 b2 b3 = n := by
  simp only [i32le, List.cons.injEq, and_true] at h
  obtain ⟨e0, e1, e2, e3⟩ := h
  subst e0 e1 e2 e3
  simp only [decodeI32]
  have hmn : ((n % 2 ^ 32 : Int)).toNat = (n % 2 ^ 32 : Int) ∧
      (0 : Int) ≤ n % 2 ^ 32 ∧ (n % 2 ^ 32 : Int) < 2 ^ 32 := by
    refine ⟨?_, Int.emod_nonneg n (by norm_num), Int.emod_lt_of_pos n (by norm_num)⟩
    exact Int.toNat_of_nonneg (Int.emod_nonneg n (by norm_num))
  omega

theorem getD_i32le (n : Int) :
    i32le n = [(i32le n).getD 0 0, (i32le n).getD 1 0, (i32le n).getD 2 0,
      (i32le n).getD 3 0] := by
  simp [i32le]

/-- The bytes `struct.pack` produces are bytes. -/
theorem i32le_validBytes (n : Int) : ValidBytes (i32le n) := by
  intro b hb
  simp only [i32le, List.mem_cons, List.not_mem_nil, or_false] at hb
  have h4 : (0:Int) ≤ n % 2 ^ 32 := Int.emod_nonneg n (by norm_num)
  rcases hb with h | h | h | h <;> subst h <;> omega

/-- Parsing a well-formed frame off the front of a stream (connection.py
parser): the id and body come back, and exactly the frame is consumed. -/
theorem read_response_format (body : List Nat) (t : RCONPacketType) (rid : Int)
    (hid1 : -2 ^ 31 ≤ rid) (hid2 : rid < 2 ^ 31) (hlen : body.length + 10 < 2 ^ 31)
    (rest : List Nat) :
    read_response (format_packet body t rid ++ rest) = .ok ((rid, body), rest) := by
  have hL : ((body.length + PACKET_METADATA_SIZE : Nat) : Int) < 2 ^ 31 := by
    simp only [PACKET_METADATA_SIZE]; exact_mod_cast hlen
  have hL0 : (0 : Int) ≤ ((body.length + PACKET_METADATA_SIZE : Nat) : Int) := Int.natCast_nonneg _
  set L : Nat := body.length + PACKET_METADATA_SIZE with hLdef
  set P : List Nat := i32le rid ++ i32le t.value ++ body ++ [0, 0] with hPdef
  have hPlen : P.length = L := by
    simp [hPdef, hLdef, i32le_length, PACKET_METADATA_SIZE]; omega
  have hsplit : format_packet body t rid ++ rest = i32le (L : Int) ++ (P ++ rest) := by
    simp [format_packet, hPdef, hLdef, List.append_assoc]
  have hlen4 : ¬ ((i32le (L : Int) ++ (P ++ rest)).length < 4) := by
    simp [i32le_length]
  have htake4 : (i32le (L : Int) ++ (P ++ rest)).take 4 = i32le (L : Int) :=
    List.take_left' (i32le_length _)
  have hdrop4 : (i32le (L : Int) ++ (P ++ rest)).drop 4 = P ++ rest :=
    List.drop_left' (i32le_length _)
  have hdec : decodeI32 ((i32le (L : Int)).getD 0 0) ((i32le (L : Int)).getD 1 0)
      ((i32le (L : Int)).getD 2 0) ((i32le (L : Int)).getD 3 0) = (L : Int) := by
    exact decodeI32_i32le _ (by omega) hL _ _ _ _ (getD_i32le _).symm
  have htoNat : ((L : Int)).toNat = L := Int.toNat_natCast L
  have hrestlen : ¬ ((P ++ rest).length < L) := by
    simp [List.length_append, hPlen]
  have htakeL : (P ++ rest).take L = P := List.take_left' hPlen
  have hdropL : (P ++ rest).drop L = rest := List.drop_left' hPlen
  have hP4 : ¬ (P.length < 4) := by
    rw [hPlen]; simp [hLdef, PACKET_METADATA_SIZE]
  have hPgetD : ∀ k : Nat, k < 4 → P.getD k 0 = (i32le rid).getD k 0 := by
    intro k hk
    simp only [hPdef, List.append_assoc]
    rw [List.getD_append]
    rw [i32le_length]; exact hk
  have hdecid : decodeI32 (P.getD 0 0) (P.getD 1 0) (P.getD 2 0) (P.getD 3 0) = rid := by
    rw [hPgetD 0 (by norm_num), hPgetD 1 (by norm_num), hPgetD 2 (by norm_num),
      hPgetD 3 (by norm_num)]
    exact decodeI32_i32le _ hid1 hid2 _ _ _ _ (getD_i32le _).symm
  have hbody : (P.take (P.length - 2)).drop 8 = body := by
    have hsub : P.length - 2 = body.length + 8 := by
      rw [hPlen]; simp [hLdef, PACKET_METADATA_SIZE]
    have h2 : P = (i32le rid ++ (i32le t.value ++ body)) ++ [0, 0] := by
      simp [hPdef, List.append_assoc]
    have hlen2 : (i32le rid ++ (i32le t.value ++ body)).length = body.length + 8 := by
      simp [i32le_length]; omega
    rw [hsub, h2, List.take_left' hlen2]
    have h3 : i32le rid ++ (i32le t.value ++ body) = (i32le rid ++ i32le t.value) ++ body := by
      simp [List.append_assoc]
    have hlen8 : (i32le rid ++ i32le t.value).length = 8 := by simp [i32le_length]
    rw [h3, List.drop_left' hlen8]
  rw [hsplit]
  simp only [read_response]
  rw [if_neg hlen4, htake4, hdrop4, hdec,
    if_neg (show ¬ ((L : Nat) : Int) < 0 by omega), htoNat,
    if_neg hrestlen, htakeL, if_neg hP4, hdecid, hbody, hdropL]

/-- Every declared packet type value fits in a signed 32-bit integer. -/
theorem packetType_value_range (t : RCONPacketType) :
    -2 ^ 31 ≤ t.value ∧ t.value < 2 ^ 31 := by
  cases t <;> simp [RCONPacketType.value] <;> decide

/-- Parsing a well-formed frame off the front of a stream (packet.py
parser): id, type and body come back, and exactly the frame is consumed. -/
theorem packet_read_response_format (body : List Nat) (t : RCONPacketType)
    (rid : Int) (hid1 : -2 ^ 31 ≤ rid) (hid2 : rid < 2 ^ 31)
    (hlen : body.length + 10 < 2 ^ 31) (rest : List Nat) :
    packet_read_response (format_packet body t rid ++ rest) =
      .ok ((rid, t.value, body), rest) := by
  have hL : ((body.length + PACKET_METADATA_SIZE : Nat) : Int) < 2 ^ 31 := by
    simp only [PACKET_METADATA_SIZE]; exact_mod_cast hlen
  set L : Nat := body.length + PACKET_METADATA_SIZE with hLdef
  set P : List Nat := i32le rid ++ i32le t.value ++ body ++ [0, 0] with hPdef
  have hPlen : P.length = L := by
    simp [hPdef, hLdef, i32le_length, PACKET_METADATA_SIZE]; omega
  have hsplit : format_packet body t rid ++ rest = i32le (L : Int) ++ (P ++ rest) := by
    simp [format_packet, hPdef, hLdef, List.append_assoc]
  have hlen4 : ¬ ((i32le (L : Int) ++ (P ++ rest)).length < 4) := by
    simp [i32le_length]
  have htake4 : (i32le (L : Int) ++ (P ++ rest)).take 4 = i32le (L : Int) :=
    List.take_left' (i32le_length _)
  have hdrop4 : (i32le (L : Int) ++ (P ++ rest)).drop 4 = P ++ rest :=
    List.drop_left' (i32le_length _)
  have hdec : decodeI32 ((i32le (L : Int)).getD 0 0) ((i32le (L : Int)).getD 1 0)
      ((i32le (L : Int)).getD 2 0) ((i32le (L : Int)).getD 3 0) = (L : Int) := by
    exact decodeI32_i32le _ (by omega) hL _ _ _ _ (getD_i32le _).symm
  have htoNat : ((L : Int)).toNat = L := Int.toNat_natCast L
  have hrestlen : ¬ ((P ++ rest).length < L) := by
    simp [List.length_append, hPlen]
  have htakeL : (P ++ rest).take L = P := List.take_left' hPlen
  have hdropL : (P ++ rest).drop L = rest := List.drop_left' hPlen
  have hP8 : ¬ (P.length < 8) := by
    rw [hPlen]; simp [hLdef, PACKET_METADATA_SIZE]
  have hPgetD : ∀ k : Nat, k < 4 → P.getD k 0 = (i32le rid).getD k 0 := by
    intro k hk
    simp only [hPdef, List.append_assoc]
    rw [List.getD_append]
    rw [i32le_length]; exact hk
  have hPgetD2 : ∀ k : Nat, k < 4 → P.getD (4 + k) 0 = (i32le t.value).getD k 0 := by
    intro k hk
    simp only [hPdef, List.append_assoc]
    rw [List.getD_append_right]
    · rw [i32le_length, Nat.add_sub_cancel_left]
      rw [List.getD_append]
      rw [i32le_length]; exact hk
    · rw [i32le_length]; omega
  have hdecid : decodeI32 (P.getD 0 0) (P.getD 1 0) (P.getD 2 0) (P.getD 3 0) = rid := by
    rw [hPgetD 0 (by norm_num), hPgetD 1 (by norm_num), hPgetD 2 (by norm_num),
      hPgetD 3 (by norm_num)]
    exact decodeI32_i32le _ hid1 hid2 _ _ _ _ (getD_i32le _).symm
  have hdectype : decodeI32 (P.getD 4 0) (P.getD 5 0) (P.getD 6 0) (P.getD 7 0) = t.value := by
    have e4 : (4 : Nat) = 4 + 0 := rfl
    have e5 : (5 : Nat) = 4 + 1 := rfl
    have e6 : (6 : Nat) = 4 + 2 := rfl
    have e7 : (7 : Nat) = 4 + 3 := rfl
    rw [e4, e5, e6, e7, hPgetD2 0 (by norm_num), hPgetD2 1 (by norm_num),
      hPgetD2 2 (by norm_num), hPgetD2 3 (by norm_num)]
    exact decodeI32_i32le _ (packetType_value_range t).1 (packetType_value_range t).2
      _ _ _ _ (getD_i32le _).symm
  have hbody : (P.take (P.length - 2)).drop 8 = body := by
    have hsub : P.length - 2 = body.length + 8 := by
      rw [hPlen]; simp [hLdef, PACKET_METADATA_SIZE]
    have h2 : P = (i32le rid ++ (i32le t.value ++ body)) ++ [0, 0] := by
      simp [hPdef, List.append_assoc]
    have hlen2 : (i32le rid ++ (i32le t.value ++ body)).length = body.length + 8 := by
      simp [i32le_length]; omega
    rw [hsub, h2, List.take_left' hlen2]
    have h3 : i32le rid ++ (i32le t.value ++ body) = (i32le rid ++ i32le t.value) ++ body := by
      simp [List.append_assoc]
    have hlen8 : (i32le rid ++ i32le t.value).length = 8 := by simp [i32le_length]
    rw [h3, List.drop_left' hlen8]
  rw [hsplit]
  simp only [packet_read_response]
  rw [if_neg hlen4, htake4, hdrop4, hdec,
    if_neg (show ¬ ((L : Nat) : Int) < 0 by omega), htoNat,
    if_neg hrestlen, htakeL, if_neg hP8, hdecid, hdectype, hbody, hdropL]

/-- **C2.** Frame round-trip: for every UTF-8 body (bytes, including the
empty body and bodies with embedded `0x00`), every packet type and every
request id representable as a signed 32-bit integer (the domain of
`struct.pack("<i", ·)`), encoding a frame and decoding it yields back
`(body, type, id)`; the connection.py parser likewise returns
`(id, body)`. -/
theorem frame_roundtrip (body : List Nat) (t : RCONPacketType) (rid : Int)
    (hbytes : ValidBytes body) (hid1 : -2 ^ 31 ≤ rid) (hid2 : rid < 2 ^ 31)
    (hlen : body.length + 10 < 2 ^ 31) :
    packet_read_response (format_packet body t rid) =
        .ok ((rid, t.value, body), []) ∧
    read_response (format_packet body t rid) = .ok ((rid, body), []) := by
  constructor
  · have h := packet_read_response_format body t rid hid1 hid2 hlen []
    rwa [List.append_nil] at h
  · have h := read_response_format body t rid hid1 hid2 hlen []
    rwa [List.append_nil] at h

/-- Witness for C2 at a concrete frame. -/
theorem frame_roundtrip_witness :
    (ValidBytes [104, 0, 105] ∧ -2 ^ 31 ≤ (7 : Int) ∧ (7 : Int) < 2 ^ 31 ∧
      ([104, 0, 105] : List Nat).length + 10 < 2 ^ 31) ∧
    (packet_read_response (format_packet [104, 0, 105] .COMMAND_PACKET 7) =
        .ok ((7, RCONPacketType.COMMAND_PACKET.value, [104, 0, 105]), []) ∧
      read_response (format_packet [104, 0, 105] .COMMAND_PACKET 7) =
        .ok ((7, [104, 0, 105]), [])) :=
  ⟨⟨by decide, by decide, by decide, by decide⟩,
    frame_roundtrip [104, 0, 105] .COMMAND_PACKET 7
      (by decide) (by decide) (by decide) (by decide)⟩

/-! ## The `send_command` read loop on scripted frames -/

theorem recv_loop_read_error {rid drid : Int} {acc : List (List Nat)}
    {reader : List Nat} {e : ReadError} (h : read_response reader = .error e) :
    recv_loop rid drid acc reader = .error e := by
  rw [recv_loop]
  split
  · rename_i e' h'
    rw [h] at h'
    cases h'
    rfl
  · rename_i p h'
    rw [h] at h'
    cases h'

theorem recv_loop_read_ok {rid drid : Int} {acc : List (List Nat)}
    {reader rest : List Nat} {i : Int} {b : List Nat}
    (h : read_response reader = .ok ((i, b), rest)) :
    recv_loop rid drid acc reader =
      if i = -1 then .ok none
      else if i = drid then .ok (some acc.flatten)
      else if i = rid then recv_loop rid drid (acc ++ [b]) rest
      else recv_loop rid drid acc rest := by
  rw [recv_loop]
  split
  · rename_i e' h'
    rw [h] at h'
    cases h'
  · rename_i p h'
    rw [h] at h'
    cases h'
    rfl

theorem encodeFrames_nil : encodeFrames [] = [] := rfl

theorem encodeFrames_cons (f : Int × List Nat) (fs : List (Int × List Nat)) :
    encodeFrames (f :: fs) =
      format_packet f.2 .MULTI_PACKET f.1 ++ encodeFrames fs := by
  simp [encodeFrames]

/-- The read loop on a scripted frame sequence follows `reassemble`; if
the script ends without a terminator the loop dies on a short read. -/
theorem recv_loop_encodeFrames (rid drid : Int) (frames : List (Int × List Nat))
    (hf : ∀ f ∈ frames, ValidFrame f) (acc : List (List Nat)) :
    recv_loop rid drid acc (encodeFrames frames) =
      match reassemble rid drid acc frames with
      | none => .error .incompleteRead
      | some r => .ok r := by
  induction frames generalizing acc with
  | nil =>
    rw [encodeFrames_nil, reassemble]
    exact recv_loop_read_error rfl
  | cons f fs ih =>
    obtain ⟨i, b⟩ := f
    have hv := hf (i, b) (List.mem_cons_self _ _)
    obtain ⟨h1, h2, h3, h4⟩ := hv
    have hread : read_response (encodeFrames ((i, b) :: fs)) = .ok ((i, b), encodeFrames fs) := by
      rw [encodeFrames_cons]
      exact read_response_format b .MULTI_PACKET i h1 h2 h4 _
    rw [recv_loop_read_ok hread, reassemble]
    have hfs : ∀ f ∈ fs, ValidFrame f := fun f hmem => hf f (List.mem_cons_of_mem _ hmem)
    by_cases hn1 : i = -1
    · simp [hn1]
    · rw [if_neg hn1, if_neg hn1]
      by_cases hnd : i = drid
      · simp [hnd]
      · rw [if_neg hnd, if_neg hnd]
        by_cases hnr : i = rid
        · rw [if_pos hnr, if_pos hnr, ih hfs]
        · rw [if_neg hnr, if_neg hnr, ih hfs]

/-- Reassembling parts with the request id followed by the terminator
yields the concatenation of the parts. -/
theorem reassemble_parts (rid drid : Int) (hrd1 : rid ≠ -1) (hrd2 : drid ≠ -1)
    (hrd3 : rid ≠ drid) (parts : List (List Nat)) (term : List Nat)
    (acc : List (List Nat)) :
    reassemble rid drid acc (parts.map (fun b => (rid, b)) ++ [(drid, term)]) =
      some (some (acc.flatten ++ parts.flatten)) := by
  induction parts generalizing acc with
  | nil =>
    simp only [List.map_nil, List.nil_append, reassemble]
    rw [if_neg hrd2]
    simp
  | cons p ps ih =>
    simp only [List.map_cons, List.cons_append, reassemble]
    rw [if_neg hrd1, if_neg hrd3]
    simpa using ih (acc ++ [p])

/-- On a connected client, `send_command` is the read loop after writing
the command packet and the dummy packet. -/
theorem send_command_eq (r : Int) (cmd reader : List Nat) (hr : r ≠ -1) :
    send_command r cmd reader =
      match recv_loop (r + 1) (r + 1 + 1000) [] reader with
      | .error e => .error (.read e)
      | .ok res => .ok ⟨res, r + 1,
          format_packet cmd .COMMAND_PACKET (r + 1)
            ++ format_packet [] .DUMMY_PACKET (r + 1 + 1000)⟩ := by
  rw [send_command, if_neg hr]
  rfl

/-- `send_command` on a scripted frame sequence returns what `reassemble`
says, writing exactly the command packet and the dummy packet. -/
theorem send_command_encodeFrames (r : Int) (cmd : List Nat) (hr : r ≠ -1)
    (frames : List (Int × List Nat)) (hf : ∀ f ∈ frames, ValidFrame f)
    (res : Option (List Nat))
    (hres : reassemble (r + 1) (r + 1 + 1000) [] frames = some res) :
    send_command r cmd (encodeFrames frames) =
      .ok ⟨res, r + 1, format_packet cmd .COMMAND_PACKET (r + 1)
        ++ format_packet [] .DUMMY_PACKET (r + 1 + 1000)⟩ := by
  rw [send_command_eq r cmd _ hr, recv_loop_encodeFrames _ _ frames hf [], hres]

/-- **C1.** On a connected client (`request_id ≠ -1`), `send_command`
increments the request id to `rid = r + 1`, writes one COMMAND frame with
id `rid` and then one type-200 DUMMY frame with id `rid + 1000` and empty
body, and returns what the read loop reassembles: the concatenation (in
arrival order) of the bodies of the frames with id `rid`, stopping at the
first frame with id `rid + 1000`, ignoring other ids, and returning the
`None` result on a frame with id `-1` (the `reassemble` reference
function).  In particular, on parts with id `rid` followed by the
terminator it returns the concatenation of the parts, and with zero parts
it returns the empty string. -/
theorem send_command_reassembly (r : Int) (cmd : List Nat) (hr : r ≠ -1) :
    (∀ frames : List (Int × List Nat), (∀ f ∈ frames, ValidFrame f) →
      ∀ res, reassemble (r + 1) (r + 1 + 1000) [] frames = some res →
      send_command r cmd (encodeFrames frames) =
        .ok ⟨res, r + 1, format_packet cmd .COMMAND_PACKET (r + 1)
          ++ format_packet [] .DUMMY_PACKET (r + 1 + 1000)⟩) ∧
    (∀ (parts : List (List Nat)) (term : List Nat),
      r + 1 ≠ -1 → r + 1 + 1000 ≠ -1 → -2 ^ 31 ≤ r + 1 → r + 1 + 1000 < 2 ^ 31 →
      (∀ b ∈ parts, ValidBytes b ∧ b.length + 10 < 2 ^ 31) →
      ValidBytes term → term.length + 10 < 2 ^ 31 →
      send_command r cmd (encodeFrames
          (parts.map (fun b => (r + 1, b)) ++ [(r + 1 + 1000, term)])) =
        .ok ⟨some parts.flatten, r + 1, format_packet cmd .COMMAND_PACKET (r + 1)
          ++ format_packet [] .DUMMY_PACKET (r + 1 + 1000)⟩) := by
  constructor
  · intro frames hf res hres
    exact send_command_encodeFrames r cmd hr frames hf res hres
  · intro parts term h1 h2 h3 h4 hparts hterm hterml
    have hvalid : ∀ f ∈ parts.map (fun b => (r + 1, b)) ++ [(r + 1 + 1000, term)],
        ValidFrame f := by
      intro f hmem
      rcases List.mem_append.mp hmem with hp | ht
      · obtain ⟨b, hb, rfl⟩ := List.mem_map.mp hp
        exact ⟨h3, by omega, (hparts b hb).1, (hparts b hb).2⟩
      · rcases List.mem_singleton.mp ht with rfl
        exact ⟨by omega, h4, hterm, hterml⟩
    have hres := reassemble_parts (r + 1) (r + 1 + 1000) h1 h2 (by omega)
      parts term []
    have hres' : reassemble (r + 1) (r + 1 + 1000) []
        (parts.map (fun b => (r + 1, b)) ++ [(r + 1 + 1000, term)]) =
          some (some parts.flatten) := by
      rw [hres]; simp
    exact send_command_encodeFrames r cmd hr _ hvalid _ hres'

/-- Witness for C1: the scripted two-part response `[(2, "A"), (2, "B")]`
followed by the terminator with id `1002` reassembles to `"AB"`, and a
lone terminator yields the empty response. -/
theorem send_command_reassembly_witness :
    ((1 : Int) ≠ -1) ∧
    (send_command 1 [108] (encodeFrames [(2, [65]), (2, [66]), (1002, [85])]) =
        .ok ⟨some [65, 66], 2, format_packet [108] .COMMAND_PACKET 2
          ++ format_packet [] .DUMMY_PACKET 1002⟩) ∧
    (send_command 1 [108] (encodeFrames [(1002, [85])]) =
        .ok ⟨some [], 2, format_packet [108] .COMMAND_PACKET 2
          ++ format_packet [] .DUMMY_PACKET 1002⟩) :=
  ⟨by decide,
    (send_command_reassembly 1 [108] (by decide)).1
      [(2, [65]), (2, [66]), (1002, [85])] (by decide) (some [65, 66]) (by decide),
    (send_command_reassembly 1 [108] (by decide)).1
      [(1002, [85])] (by decide) (some []) (by decide)⟩

/-! ## `_try_connection` retry budget -/

/-- With the infinite budget the loop can never break out to the
`ConnectionError`, whatever the attempts do. -/
theorem tryConnLoop_infinite_never_fails (pause : Option Int)
    (succeeds : Nat → Bool) :
    ∀ fuel attempt sleeps k s,
      try_connection_loop INFINITE pause succeeds attempt sleeps fuel ≠
        .connectionFailed k s := by
  intro fuel
  induction fuel with
  | zero =>
    intro a s k sl
    simp [try_connection_loop]
  | succ f ih =>
    intro a s k sl
    simp only [try_connection_loop]
    by_cases hs : succeeds a
    · simp [hs]
    · have hcond : ¬ (INFINITE ≠ INFINITE ∧ ((a + 1 : Nat) : Int) > INFINITE) := by
        simp
      simp only [hs, Bool.false_eq_true, if_false, if_neg hcond]
      exact ih _ _ k sl

/-- With the infinite budget and every attempt failing, the loop is still
running after any number of iterations, having slept before every attempt
but the first (when the pause is truthy). -/
theorem tryConnLoop_infinite_running (pause : Option Int) (succeeds : Nat → Bool)
    (hfail : ∀ k, succeeds k = false) :
    ∀ fuel attempt sleeps,
      try_connection_loop INFINITE pause succeeds attempt sleeps fuel =
        .running (attempt + fuel)
          (sleeps + (if pauseTruthy pause then
            (if attempt = 0 then fuel - 1 else fuel) else 0)) := by
  intro fuel
  induction fuel with
  | zero =>
    intro a s
    simp [try_connection_loop]
  | succ f ih =>
    intro a s
    simp only [try_connection_loop, hfail a, Bool.false_eq_true, if_false]
    have hcond : ¬ (INFINITE ≠ INFINITE ∧ ((a + 1 : Nat) : Int) > INFINITE) := by
      simp
    rw [if_neg hcond, ih (a + 1)]
    simp only [TryConnResult.running.injEq]
    cases hpt : pauseTruthy pause <;> simp [hpt] <;> (try split_ifs) <;> omega

/-- With a finite budget of `n` retries and every attempt failing, the
loop makes exactly `n + 1` attempts, sleeping between consecutive
attempts, and then breaks out to the `ConnectionError`. -/
theorem tryConnLoop_finite_fails (pause : Option Int) (succeeds : Nat → Bool)
    (hfail : ∀ k, succeeds k = false) (n : Nat) :
    ∀ fuel attempt sleeps, attempt ≤ n → n + 1 - attempt ≤ fuel →
      try_connection_loop (n : Int) pause succeeds attempt sleeps fuel =
        .connectionFailed (n + 1)
          (sleeps + (if pauseTruthy pause then n + 1 - max attempt 1 else 0)) := by
  intro fuel
  induction fuel with
  | zero =>
    intro a s ha hf
    omega
  | succ f ih =>
    intro a s ha hf
    simp only [try_connection_loop, hfail a, Bool.false_eq_true, if_false]
    by_cases hlast : a = n
    · have hcond : (n : Int) ≠ INFINITE ∧ ((a + 1 : Nat) : Int) > (n : Int) := by
        simp only [INFINITE]
        constructor <;> omega
      rw [if_pos hcond]
      simp only [TryConnResult.connectionFailed.injEq]
      cases hpt : pauseTruthy pause <;> simp [hpt] <;> (try split_ifs) <;> omega
    · have hcond : ¬ ((n : Int) ≠ INFINITE ∧ ((a + 1 : Nat) : Int) > (n : Int)) := by
        simp only [INFINITE]
        rintro ⟨-, hgt⟩
        omega
      rw [if_neg hcond, ih (a + 1) _ (by omega) (by omega)]
      simp only [TryConnResult.connectionFailed.injEq]
      cases hpt : pauseTruthy pause <;> simp [hpt] <;> (try split_ifs) <;> omega

/-- **C7.** Connection attempts are retried with `reconnect_pause` slept
between consecutive attempts: with the infinite budget the loop never
raises `ConnectionFailed` (and, when every attempt fails, is still
retrying after any number of iterations), while a finite budget of `n`
retries performs exactly `n + 1` attempts and then fails with the
`ConnectionError`. -/
theorem try_connection_budget (pause : Option Int) (succeeds : Nat → Bool) :
    (∀ fuel k s,
      try_connection INFINITE pause succeeds fuel ≠ .connectionFailed k s) ∧
    ((∀ k, succeeds k = false) → ∀ fuel,
      try_connection INFINITE pause succeeds fuel =
        .running fuel (if pauseTruthy pause then fuel - 1 else 0)) ∧
    (∀ n : Nat, (∀ k, succeeds k = false) → ∀ fuel, n + 1 ≤ fuel →
      try_connection (n : Int) pause succeeds fuel =
        .connectionFailed (n + 1) (if pauseTruthy pause then n else 0)) := by
  refine ⟨?_, ?_, ?_⟩
  · intro fuel k s
    exact tryConnLoop_infinite_never_fails pause succeeds fuel 0 0 k s
  · intro hfail fuel
    rw [try_connection, tryConnLoop_infinite_running pause succeeds hfail fuel 0 0]
    simp
  · intro n hfail fuel hfuel
    rw [try_connection, tryConnLoop_finite_fails pause succeeds hfail n fuel 0 0
      (by omega) (by omega)]
    simp

/-- Witness for C7: budget of three retries, every attempt failing, pause
of five seconds: four attempts, three sleeps, then `ConnectionFailed`;
and the infinite budget is still running after ten iterations. -/
theorem try_connection_budget_witness :
    ((∀ k : Nat, (fun _ => false : Nat → Bool) k = false) ∧ 3 + 1 ≤ 4) ∧
    try_connection ((3 : Nat) : Int) (some 5) (fun _ => false) 4 =
      .connectionFailed (3 + 1) (if pauseTruthy (some 5) then 3 else 0) ∧
    try_connection INFINITE (some 5) (fun _ => false) 10 =
      .running 10 (if pauseTruthy (some 5) then 10 - 1 else 0) :=
  ⟨⟨fun _ => rfl, by omega⟩,
    (try_connection_budget (some 5) (fun _ => false)).2.2 3 (fun _ => rfl) 4 (by omega),
    (try_connection_budget (some 5) (fun _ => false)).2.1 (fun _ => rfl) 10⟩

/-! ## Command settlement -/

theorem applySettle_of_absent {st : CommandState} (h : st.result = none)
    (op : SettleOp) : applySettle st op = st := by
  cases op <;> simp [applySettle, set_command_result, set_command_error, h]

theorem applySettle_of_done {st : CommandState} {o : Outcome}
    (h : st.result = some (some o)) (op : SettleOp) : applySettle st op = st := by
  cases op <;> simp [applySettle, set_command_result, set_command_error, h]

/-- States reachable from a well-formed command state stay well-formed:
the slot is absent (untouched), pending with completion clear, or done
with completion set. -/
theorem applySettles_cases (st : CommandState) (ops : List SettleOp)
    (hst : (st.result = none ∧ st.completion = false) ∨
      (st.result = some none ∧ st.completion = false) ∨
      (∃ o, st.result = some (some o) ∧ st.completion = true)) :
    ((applySettles st ops).result = none ∧ (applySettles st ops).completion = false ∧
        applySettles st ops = st) ∨
      ((applySettles st ops).result = some none ∧
        (applySettles st ops).completion = false) ∨
      (∃ o, (applySettles st ops).result = some (some o) ∧
        (applySettles st ops).completion = true) := by
  induction ops generalizing st with
  | nil =>
    rcases hst with ⟨h1, h2⟩ | ⟨h1, h2⟩ | ⟨o, h1, h2⟩
    · exact Or.inl ⟨h1, h2, rfl⟩
    · exact Or.inr (Or.inl ⟨h1, h2⟩)
    · exact Or.inr (Or.inr ⟨o, h1, h2⟩)
  | cons op ops ih =>
    have hstep : applySettles st (op :: ops) = applySettles (applySettle st op) ops := rfl
    rw [hstep]
    rcases hst with ⟨h1, h2⟩ | ⟨h1, h2⟩ | ⟨o, h1, h2⟩
    · rw [applySettle_of_absent h1]
      exact ih st (Or.inl ⟨h1, h2⟩)
    · have hset : (applySettle st op).result = some (some (match op with
          | .setResult s => Outcome.result s
          | .setError e => Outcome.error e)) ∧
          (applySettle st op).completion = true := by
        cases op <;> simp [applySettle, set_command_result, set_command_error, h1]
      rcases ih (applySettle st op) (Or.inr (Or.inr ⟨_, hset.1, hset.2⟩))
        with ⟨h3, -, h5⟩ | h | h
      · exfalso
        rw [h5, hset.1] at h3
        cases h3
      · exact Or.inr (Or.inl h)
      · exact Or.inr (Or.inr h)
    · rw [applySettle_of_done h1]
      exact ih st (Or.inr (Or.inr ⟨o, h1, h2⟩))

/-- **C4.** Single settlement and completion coupling: from any freshly
created command (including fire-and-forget commands with no result slot)
and any sequence of `set_command_result` / `set_command_error` calls,
(i) `completion` is set iff a terminal outcome is recorded in the slot,
(ii) once settled, a further call leaves result and completion unchanged,
(iii) a settling call (slot present and pending) fulfils the slot and
sets completion in the same step, and (iv) a fire-and-forget command is
never mutated at all. -/
theorem settlement_single (init : CommandState) (hinit : InitialCommand init)
    (ops : List SettleOp) :
    ((applySettles init ops).completion = true ↔ IsSettled (applySettles init ops)) ∧
    (∀ op, IsSettled (applySettles init ops) →
      applySettle (applySettles init ops) op = applySettles init ops) ∧
    (∀ op, (applySettles init ops).result = some none →
      IsSettled (applySettle (applySettles init ops) op) ∧
      (applySettle (applySettles init ops) op).completion = true) ∧
    (init.result = none → applySettles init ops = init) := by
  obtain ⟨hc, hr⟩ := hinit
  have hst : (init.result = none ∧ init.completion = false) ∨
      (init.result = some none ∧ init.completion = false) ∨
      (∃ o, init.result = some (some o) ∧ init.completion = true) := by
    rcases hr with h | h
    · exact Or.inl ⟨h, hc⟩
    · exact Or.inr (Or.inl ⟨h, hc⟩)
  have key := applySettles_cases init ops hst
  refine ⟨?_, ?_, ?_, ?_⟩
  · rcases key with ⟨h1, h2, -⟩ | ⟨h1, h2⟩ | ⟨o, h1, h2⟩
    · rw [h2]
      constructor
      · intro h; cases h
      · rintro ⟨o, ho⟩; rw [h1] at ho; cases ho
    · rw [h2]
      constructor
      · intro h; cases h
      · rintro ⟨o, ho⟩; rw [h1] at ho; cases ho
    · rw [h2]
      exact ⟨fun _ => ⟨o, h1⟩, fun _ => rfl⟩
  · rintro op ⟨o, ho⟩
    exact applySettle_of_done ho op
  · intro op hpending
    cases op <;>
      simp [applySettle, set_command_result, set_command_error, hpending, IsSettled]
  · intro habsent
    clear key
    induction ops with
    | nil => rfl
    | cons op ops ih =>
      have hstep : applySettles init (op :: ops) =
          applySettles (applySettle init op) ops := rfl
      rw [hstep, applySettle_of_absent habsent]
      exact ih

/-- Witness for C4 at a concrete pending command settled once. -/
theorem settlement_single_witness :
    InitialCommand ⟨some none, false⟩ ∧
    ((applySettles ⟨some none, false⟩ [.setResult "ok"]).completion = true ↔
      IsSettled (applySettles ⟨some none, false⟩ [.setResult "ok"])) ∧
    (∀ op, IsSettled (applySettles ⟨some none, false⟩ [.setResult "ok"]) →
      applySettle (applySettles ⟨some none, false⟩ [.setResult "ok"]) op =
        applySettles ⟨some none, false⟩ [.setResult "ok"]) ∧
    (∀ op, (applySettles ⟨some none, false⟩ [.setResult "ok"]).result = some none →
      IsSettled (applySettle (applySettles ⟨some none, false⟩ [.setResult "ok"]) op) ∧
      (applySettle (applySettles ⟨some none, false⟩ [.setResult "ok"]) op).completion
        = true) ∧
    ((⟨some none, false⟩ : CommandState).result = none →
      applySettles ⟨some none, false⟩ [.setResult "ok"] = ⟨some none, false⟩) :=
  ⟨⟨rfl, Or.inr rfl⟩, settlement_single ⟨some none, false⟩ ⟨rfl, Or.inr rfl⟩
    [.setResult "ok"]⟩

/-! ## Topological sort: auxiliary list lemmas -/

theorem filter_length_mono {α : Type} (l : List α) (p q : α → Bool)
    (himp : ∀ x, q x = true → p x = true) :
    (l.filter q).length ≤ (l.filter p).length := by
  induction l with
  | nil => simp
  | cons x xs ih =>
    rw [List.filter_cons, List.filter_cons]
    by_cases hq : q x = true
    · rw [if_pos hq, if_pos (himp x hq)]
      simpa using ih
    · rw [if_neg hq]
      by_cases hp : p x = true
      · rw [if_pos hp]
        simp only [List.length_cons]
        omega
      · rw [if_neg hp]
        exact ih

theorem filter_length_lt {α : Type} [DecidableEq α] {l : List α}
    {p q : α → Bool} {a : α} (ha : a ∈ l) (hpa : p a = true) (hqa : q a = false)
    (himp : ∀ x, q x = true → p x = true) :
    (l.filter q).length < (l.filter p).length := by
  obtain ⟨s, t, rfl⟩ := List.append_of_mem ha
  rw [List.filter_append, List.filter_append, List.filter_cons, List.filter_cons,
    if_pos hpa, if_neg (by simp [hqa])]
  have h1 := filter_length_mono s p q himp
  have h2 := filter_length_mono t p q himp
  simp only [List.length_append, List.length_cons]
  omega

theorem lookup_mem {l : List (Int × List Int)} {a : Int} {b : List Int}
    (h : l.lookup a = some b) : ∃ a', (a', b) ∈ l := by
  induction l with
  | nil => cases h
  | cons p ps ih =>
    rw [List.lookup] at h
    by_cases hk : a == p.1
    · simp only [hk] at h
      refine ⟨p.1, ?_⟩
      obtain rfl : p.2 = b := by simpa using h
      simp
    · rw [Bool.not_eq_true] at hk
      simp only [hk] at h
      obtain ⟨a', hmem⟩ := ih h
      exact ⟨a', List.mem_cons_of_mem _ hmem⟩

/-- Every dependency id the heap can produce lies in `idUniverse`. -/
theorem depsOf_subset_idUniverse (g : Graph) (order : List Int) :
    ∀ x, ∀ d ∈ depsOf g x, d ∈ idUniverse g order := by
  intro x d hd
  unfold depsOf at hd
  cases hlk : g.lookup x with
  | none => rw [hlk] at hd; cases hd
  | some ds =>
    rw [hlk] at hd
    obtain ⟨a', hmem⟩ := lookup_mem hlk
    have hds : ds ∈ g.map (fun p => p.2) := List.mem_map_of_mem _ hmem
    have hfl : d ∈ (g.map (fun p => p.2)).flatten := List.mem_flatten.mpr ⟨ds, hds, hd⟩
    unfold idUniverse
    exact List.mem_append.mpr (Or.inr hfl)

theorem order_subset_idUniverse (g : Graph) (order : List Int) :
    ∀ c ∈ order, c ∈ idUniverse g order := by
  intro c hc
  unfold idUniverse
  exact List.mem_append.mpr (Or.inl (List.mem_append.mpr (Or.inl hc)))

/-! ## Topological sort: properties of `TopoSorted` -/

theorem topoSorted_nil (g : Graph) : TopoSorted g [] := by
  intro pre i post h
  exact absurd h (by simp)

theorem topoSorted_append {g : Graph} {l : List Int} {i : Int}
    (hl : TopoSorted g l) (hdeps : ∀ d ∈ depsOf g i, d ∈ l) :
    TopoSorted g (l ++ [i]) := by
  intro pre x post heq d hd
  rcases List.eq_nil_or_concat post with rfl | ⟨q, last, rfl⟩
  · obtain ⟨h1, h2⟩ := List.append_inj' heq (by simp)
    obtain rfl : i = x := by simpa using h2
    subst h1
    exact hdeps d hd
  · have heq' : l ++ [i] = (pre ++ x :: q) ++ [last] := by
      rw [heq]; simp
    obtain ⟨h1, -⟩ := List.append_inj' heq' (by simp)
    exact hl pre x q h1 d hd

theorem topoSorted_init {g : Graph} {l : List Int} {i : Int}
    (h : TopoSorted g (l ++ [i])) : TopoSorted g l := by
  intro pre x post heq d hd
  exact h pre x (post ++ [i]) (by rw [heq]; simp) d hd

/-- Every dependency edge leaving an element of a topologically sorted
list stays inside the list. -/
theorem topoSorted_edge_mem {g : Graph} {l : List Int} (hl : TopoSorted g l)
    {x d : Int} (hx : x ∈ l) (hd : Edge g x d) : d ∈ l := by
  obtain ⟨s, t, rfl⟩ := List.append_of_mem hx
  have := hl s x t rfl d hd
  simp only [List.mem_append, List.mem_cons]
  exact Or.inl this

theorem topoSorted_reflReach_mem {g : Graph} {l : List Int} (hl : TopoSorted g l)
    {x y : Int} (hx : x ∈ l) (h : Relation.ReflTransGen (Edge g) x y) : y ∈ l := by
  induction h with
  | refl => exact hx
  | tail _ he ih => exact topoSorted_edge_mem hl ih he

/-- A topologically sorted duplicate-free list admits no dependency cycle
through any of its elements. -/
theorem topoSorted_no_cycle {g : Graph} :
    ∀ {l : List Int}, l.Nodup → TopoSorted g l →
      ∀ v ∈ l, ¬ Relation.TransGen (Edge g) v v := by
  intro l
  induction l using List.reverseRecOn with
  | nil => intro _ _ v hv; cases hv
  | append_singleton l i ih =>
    intro hnd htopo v hv hcyc
    have hndl : l.Nodup := (List.nodup_append.mp hnd).1
    have hil : i ∉ l := by
      have := (List.nodup_append.mp hnd).2.2
      intro hmem
      exact this hmem (List.mem_singleton_self i)
    have htl : TopoSorted g l := topoSorted_init htopo
    have hdepsi : ∀ d ∈ depsOf g i, d ∈ l := fun d hd => htopo l i [] rfl d hd
    rcases List.mem_append.mp hv with hvl | hvi
    · -- cycle through an element of the prefix stays in the prefix
      exact ih hndl htl v hvl hcyc
    · obtain rfl : v = i := by simpa using hvi
      rcases Relation.TransGen.tail'_iff.mp hcyc with ⟨b, hreach, hlast⟩
      rcases Relation.ReflTransGen.cases_head hreach with heq | ⟨c, hfirst, hrest⟩
      · -- self-loop: i depends on itself, so i would be in l
        rw [← heq] at hlast
        exact hil (hdepsi _ hlast)
      · have hcl : c ∈ l := hdepsi c hfirst
        have hbl : b ∈ l := topoSorted_reflReach_mem htl hcl hrest
        exact hil (topoSorted_edge_mem htl hbl hlast)

/-! ## Topological sort: DFS soundness -/

theorem dfsNode_zero (g : Graph) (st : DfsState) (i : Int) :
    dfsNode g 0 st i = .error .outOfFuel := by
  rw [dfsNode]

theorem dfsNode_succ (g : Graph) (fuel : Nat) (st : DfsState) (i : Int) :
    dfsNode g (fuel + 1) st i =
      if i ∈ st.finished then .ok st
      else if i ∈ st.visiting then .error .cycleDetected
      else
        match dfsList g fuel { st with visiting := i :: st.visiting } (depsOf g i) with
        | .error e => .error e
        | .ok st2 => .ok ⟨i :: st2.finished, st2.visiting.erase i, st2.sorted ++ [i]⟩ := by
  rw [dfsNode]

theorem dfsList_nil (g : Graph) (fuel : Nat) (st : DfsState) :
    dfsList g fuel st [] = .ok st := by
  rw [dfsList]

theorem dfsList_cons (g : Graph) (fuel : Nat) (st : DfsState) (d : Int)
    (ds : List Int) :
    dfsList g fuel st (d :: ds) =
      match dfsNode g fuel st d with
      | .error e => .error e
      | .ok st' => dfsList g fuel st' ds := by
  rw [dfsList]

/-- Soundness of the `for dependency in command.dependencies` loop,
assuming soundness of `dfsNode` at the same fuel. -/
theorem dfsList_sound (g : Graph) (C : List Int) (fuel : Nat)
    (ihP : ∀ (st : DfsState) (i : Int), i ∈ C →
      (∀ x ∈ st.visiting, x ∈ C) → (∀ x ∈ st.sorted, x ∈ C) →
      DfsInv g st → freshCount C st < fuel →
      (∀ v ∈ st.visiting, Relation.TransGen (Edge g) v i) →
      (dfsNode g fuel st i ≠ .error .outOfFuel ∧
        dfsNode g fuel st i ≠ .error .duplicateId) ∧
      (∀ st', dfsNode g fuel st i = .ok st' →
        st'.visiting = st.visiting ∧ (∀ x ∈ st'.sorted, x ∈ C) ∧
        DfsInv g st' ∧ (∃ new, st'.sorted = st.sorted ++ new) ∧
        i ∈ st'.finished ∧ (∀ x ∈ st.finished, x ∈ st'.finished)) ∧
      (dfsNode g fuel st i = .error .cycleDetected →
        ∃ v ∈ C, Relation.TransGen (Edge g) v v)) :
    ∀ (ds : List Int) (st : DfsState), (∀ d ∈ ds, d ∈ C) →
      (∀ x ∈ st.visiting, x ∈ C) → (∀ x ∈ st.sorted, x ∈ C) →
      DfsInv g st → freshCount C st < fuel →
      (∀ v ∈ st.visiting, ∀ d ∈ ds, Relation.TransGen (Edge g) v d) →
      (dfsList g fuel st ds ≠ .error .outOfFuel ∧
        dfsList g fuel st ds ≠ .error .duplicateId) ∧
      (∀ st', dfsList g fuel st ds = .ok st' →
        st'.visiting = st.visiting ∧ (∀ x ∈ st'.sorted, x ∈ C) ∧
        DfsInv g st' ∧ (∃ new, st'.sorted = st.sorted ++ new) ∧
        (∀ d ∈ ds, d ∈ st'.finished) ∧ (∀ x ∈ st.finished, x ∈ st'.finished)) ∧
      (dfsList g fuel st ds = .error .cycleDetected →
        ∃ v ∈ C, Relation.TransGen (Edge g) v v) := by
  intro ds
  induction ds with
  | nil =>
    intro st _ hvisC hsortC hinv hfuel _
    rw [dfsList_nil]
    refine ⟨⟨by simp, by simp⟩, ?_, by simp⟩
    intro st' h
    injection h with h2
    subst h2
    exact ⟨rfl, hsortC, hinv, ⟨[], by simp⟩, by simp, fun x hx => hx⟩
  | cons d ds ih =>
    intro st hds hvisC hsortC hinv hfuel hreach
    rw [dfsList_cons]
    have hd : d ∈ C := hds d (List.mem_cons_self _ _)
    have hPd := ihP st d hd hvisC hsortC hinv hfuel
      (fun v hv => hreach v hv d (List.mem_cons_self _ _))
    cases hnode : dfsNode g fuel st d with
    | error e =>
      cases e with
      | outOfFuel => exact absurd hnode hPd.1.1
      | duplicateId => exact absurd hnode hPd.1.2
      | cycleDetected =>
        refine ⟨⟨by simp, by simp⟩, by simp, ?_⟩
        intro _
        exact hPd.2.2 hnode
    | ok st1 =>
      obtain ⟨hvis1, hsort1, hinv1, ⟨new1, hnew1⟩, hdfin1, hmono1⟩ := hPd.2.1 st1 hnode
      have hfuel1 : freshCount C st1 < fuel := by
        unfold freshCount
        rw [hvis1]
        exact hfuel
      have hvisC1 : ∀ x ∈ st1.visiting, x ∈ C := by rw [hvis1]; exact hvisC
      have hreach1 : ∀ v ∈ st1.visiting, ∀ d' ∈ ds,
          Relation.TransGen (Edge g) v d' := by
        rw [hvis1]
        intro v hv d' hd'
        exact hreach v hv d' (List.mem_cons_of_mem _ hd')
      have hih := ih st1 (fun d' hd' => hds d' (List.mem_cons_of_mem _ hd'))
        hvisC1 hsort1 hinv1 hfuel1 hreach1
      refine ⟨hih.1, ?_, hih.2.2⟩
      intro st' h
      obtain ⟨hvis', hsort', hinv', ⟨new2, hnew2⟩, hdsfin', hmono'⟩ := hih.2.1 st' h
      refine ⟨by rw [hvis', hvis1], hsort', hinv',
        ⟨new1 ++ new2, by rw [hnew2, hnew1, List.append_assoc]⟩, ?_,
        fun x hx => hmono' x (hmono1 x hx)⟩
      intro d' hd'
      rcases List.mem_cons.mp hd' with rfl | hmem
      · exact hmono' d' hdfin1
      · exact hdsfin' d' hmem

/-- Soundness of `depth_first_search`: with enough fuel relative to the
closed id set `C`, the DFS cannot run out of fuel, a success preserves
the invariant and extends the output, and a `cycleDetected` failure
exhibits a real dependency cycle. -/
theorem dfsNode_sound (g : Graph) (C : List Int)
    (hC : ∀ x ∈ C, ∀ d ∈ depsOf g x, d ∈ C) :
    ∀ (fuel : Nat) (st : DfsState) (i : Int), i ∈ C →
      (∀ x ∈ st.visiting, x ∈ C) → (∀ x ∈ st.sorted, x ∈ C) →
      DfsInv g st → freshCount C st < fuel →
      (∀ v ∈ st.visiting, Relation.TransGen (Edge g) v i) →
      (dfsNode g fuel st i ≠ .error .outOfFuel ∧
        dfsNode g fuel st i ≠ .error .duplicateId) ∧
      (∀ st', dfsNode g fuel st i = .ok st' →
        st'.visiting = st.visiting ∧ (∀ x ∈ st'.sorted, x ∈ C) ∧
        DfsInv g st' ∧ (∃ new, st'.sorted = st.sorted ++ new) ∧
        i ∈ st'.finished ∧ (∀ x ∈ st.finished, x ∈ st'.finished)) ∧
      (dfsNode g fuel st i = .error .cycleDetected →
        ∃ v ∈ C, Relation.TransGen (Edge g) v v) := by
  intro fuel
  induction fuel with
  | zero =>
    intro st i _ _ _ _ hfuel _
    omega
  | succ fuel ih =>
    intro st i hiC hvisC hsortC hinv hfuel hreach
    rw [dfsNode_succ]
    by_cases hfin : i ∈ st.finished
    · rw [if_pos hfin]
      refine ⟨⟨by simp, by simp⟩, ?_, by simp⟩
      intro st' h
      injection h with h2
      subst h2
      exact ⟨rfl, hsortC, hinv, ⟨[], by simp⟩, hfin, fun x hx => hx⟩
    · rw [if_neg hfin]
      by_cases hvisi : i ∈ st.visiting
      · rw [if_pos hvisi]
        refine ⟨⟨by simp, by simp⟩, by simp, ?_⟩
        intro _
        exact ⟨i, hiC, hreach i hvisi⟩
      · rw [if_neg hvisi]
        obtain ⟨hfinRev, hsortNd, hvisNd, hdisj, htopo⟩ := hinv
        have hinv1 : DfsInv g { st with visiting := i :: st.visiting } := by
          refine ⟨hfinRev, hsortNd, List.nodup_cons.mpr ⟨hvisi, hvisNd⟩, ?_, htopo⟩
          intro x hx
          rcases List.mem_cons.mp hx with rfl | hmem
          · exact hfin
          · exact hdisj x hmem
        have hfuel1 : freshCount C { st with visiting := i :: st.visiting } < fuel := by
          have hlt : freshCount C { st with visiting := i :: st.visiting } <
              freshCount C st := by
            unfold freshCount
            exact filter_length_lt (List.mem_dedup.mpr hiC)
              (by simp [hvisi]) (by simp)
              (fun x hx => by
                simp only [decide_eq_true_eq] at hx ⊢
                intro hmem
                exact hx (List.mem_cons_of_mem _ hmem))
          omega
        have hvisC1 : ∀ x ∈ ({ st with visiting := i :: st.visiting } :
            DfsState).visiting, x ∈ C := by
          intro x hx
          rcases List.mem_cons.mp hx with rfl | hmem
          · exact hiC
          · exact hvisC x hmem
        have hreach1 : ∀ v ∈ ({ st with visiting := i :: st.visiting } :
            DfsState).visiting, ∀ d ∈ depsOf g i, Relation.TransGen (Edge g) v d := by
          intro v hv d hd
          rcases List.mem_cons.mp hv with rfl | hmem
          · exact Relation.TransGen.single hd
          · exact Relation.TransGen.tail (hreach v hmem) hd
        have hQ := dfsList_sound g C fuel ih (depsOf g i)
          { st with visiting := i :: st.visiting } (hC i hiC) hvisC1 hsortC hinv1
          hfuel1 hreach1
        cases hlist : dfsList g fuel { st with visiting := i :: st.visiting }
          (depsOf g i) with
        | error e =>
          cases e with
          | outOfFuel => exact absurd hlist hQ.1.1
          | duplicateId => exact absurd hlist hQ.1.2
          | cycleDetected =>
            refine ⟨⟨by simp, by simp⟩, by simp, ?_⟩
            intro _
            exact hQ.2.2 hlist
        | ok st2 =>
          obtain ⟨hvis2, hsort2C, hinv2, ⟨new2, hnew2⟩, hdsfin2, hmono2⟩ :=
            hQ.2.1 st2 hlist
          obtain ⟨hfinRev2, hsortNd2, hvisNd2, hdisj2, htopo2⟩ := hinv2
          have hi_vis2 : i ∈ st2.visiting := by
            rw [hvis2]
            exact List.mem_cons_self _ _
          have hi_nfin2 : i ∉ st2.finished := hdisj2 i hi_vis2
          have hi_nsort2 : i ∉ st2.sorted := by
            intro hmem
            exact hi_nfin2 (by rw [hfinRev2]; exact List.mem_reverse.mpr hmem)
          have hdeps_sort2 : ∀ d ∈ depsOf g i, d ∈ st2.sorted := by
            intro d hd
            have := hdsfin2 d hd
            rw [hfinRev2] at this
            exact List.mem_reverse.mp this
          refine ⟨⟨by simp, by simp⟩, ?_, by simp⟩
          intro st' h
          injection h with h2
          subst h2
          refine ⟨?_, ?_, ⟨?_, ?_, ?_, ?_, ?_⟩, ?_, ?_, ?_⟩
          · show st2.visiting.erase i = st.visiting
            rw [hvis2]
            exact List.erase_cons_head _ _
          · intro x hx
            rcases List.mem_append.mp hx with hmem | hmem
            · exact hsort2C x hmem
            · rw [List.mem_singleton.mp hmem]
              exact hiC
          · show i :: st2.finished = (st2.sorted ++ [i]).reverse
            rw [hfinRev2]
            simp
          · show (st2.sorted ++ [i]).Nodup
            refine List.Nodup.append hsortNd2 (List.nodup_singleton i) ?_
            intro a ha hai
            rw [List.mem_singleton.mp hai] at ha
            exact hi_nsort2 ha
          · show (st2.visiting.erase i).Nodup
            rw [hvis2, List.erase_cons_head _ _]
            exact hvisNd
          · intro x hx
            rw [hvis2, List.erase_cons_head _ _] at hx
            intro hmem
            rcases List.mem_cons.mp hmem with rfl | hmem2
            · exact hvisi hx
            · exact hdisj2 x (by rw [hvis2]; exact List.mem_cons_of_mem _ hx) hmem2
          · exact topoSorted_append htopo2 hdeps_sort2
          · exact ⟨new2 ++ [i], by rw [hnew2, List.append_assoc]⟩
          · exact List.mem_cons_self _ _
          · intro x hx
            exact List.mem_cons_of_mem _ (hmono2 x hx)

/-- The visiting stack is empty between top-level iterations, so the
fresh count never changes across the outer loop. -/
theorem sortLoop_sound (g : Graph) (C : List Int)
    (hC : ∀ x ∈ C, ∀ d ∈ depsOf g x, d ∈ C) (fuel : Nat) :
    ∀ (cs : List Int) (st : DfsState), (∀ c ∈ cs, c ∈ C) →
      st.visiting = [] → (∀ x ∈ st.sorted, x ∈ C) → DfsInv g st →
      freshCount C st < fuel →
      (sortLoop g fuel st cs ≠ .error .outOfFuel ∧
        sortLoop g fuel st cs ≠ .error .duplicateId) ∧
      (∀ st', sortLoop g fuel st cs = .ok st' →
        st'.visiting = [] ∧ (∀ x ∈ st'.sorted, x ∈ C) ∧ DfsInv g st' ∧
        (∀ c ∈ cs, c ∈ st'.finished) ∧ (∀ x ∈ st.finished, x ∈ st'.finished)) ∧
      (sortLoop g fuel st cs = .error .cycleDetected →
        ∃ v ∈ C, Relation.TransGen (Edge g) v v) := by
  intro cs
  induction cs with
  | nil =>
    intro st _ hvisNil hsortC hinv _
    simp only [sortLoop]
    refine ⟨⟨by simp, by simp⟩, ?_, by simp⟩
    intro st' h
    injection h with h2
    subst h2
    exact ⟨hvisNil, hsortC, hinv, by simp, fun x hx => hx⟩
  | cons c cs ih =>
    intro st hcs hvisNil hsortC hinv hfuel
    simp only [sortLoop]
    by_cases hcfin : c ∈ st.finished
    · rw [if_pos hcfin]
      have hih := ih st (fun c' hc' => hcs c' (List.mem_cons_of_mem _ hc'))
        hvisNil hsortC hinv hfuel
      refine ⟨hih.1, ?_, hih.2.2⟩
      intro st' h
      obtain ⟨hvis', hsort', hinv', hfin', hmono'⟩ := hih.2.1 st' h
      refine ⟨hvis', hsort', hinv', ?_, hmono'⟩
      intro c' hc'
      rcases List.mem_cons.mp hc' with rfl | hmem
      · exact hmono' c' hcfin
      · exact hfin' c' hmem
    · rw [if_neg hcfin]
      have hP := dfsNode_sound g C hC fuel st c (hcs c (List.mem_cons_self _ _))
        (by rw [hvisNil]; intro x hx; cases hx) hsortC hinv hfuel
        (by rw [hvisNil]; intro v hv; cases hv)
      cases hnode : dfsNode g fuel st c with
      | error e =>
        cases e with
        | outOfFuel => exact absurd hnode hP.1.1
        | duplicateId => exact absurd hnode hP.1.2
        | cycleDetected =>
          refine ⟨⟨by simp, by simp⟩, by simp, ?_⟩
          intro _
          exact hP.2.2 hnode
      | ok st1 =>
        obtain ⟨hvis1, hsort1, hinv1, -, hcfin1, hmono1⟩ := hP.2.1 st1 hnode
        have hvis1Nil : st1.visiting = [] := by rw [hvis1, hvisNil]
        have hfuel1 : freshCount C st1 < fuel := by
          unfold freshCount
          rw [hvis1]
          exact hfuel
        have hih := ih st1 (fun c' hc' => hcs c' (List.mem_cons_of_mem _ hc'))
          hvis1Nil hsort1 hinv1 hfuel1
        refine ⟨hih.1, ?_, hih.2.2⟩
        intro st' h
        obtain ⟨hvis', hsort', hinv', hfin', hmono'⟩ := hih.2.1 st' h
        refine ⟨hvis', hsort', hinv', ?_, fun x hx => hmono' x (hmono1 x hx)⟩
        intro c' hc'
        rcases List.mem_cons.mp hc' with rfl | hmem
        · exact hmono' c' hcfin1
        · exact hfin' c' hmem

/-- When no command in the remaining input has dependencies, the outer
loop emits them in input order. -/
theorem sortLoop_indep (g : Graph) (fuel : Nat) :
    ∀ (cs done : List Int), (done ++ cs).Nodup → (∀ i ∈ cs, depsOf g i = []) →
      sortLoop g (fuel + 1) ⟨done.reverse, [], done⟩ cs =
        .ok ⟨(done ++ cs).reverse, [], done ++ cs⟩ := by
  intro cs
  induction cs with
  | nil =>
    intro done _ _
    simp [sortLoop]
  | cons c cs ih =>
    intro done hnd hdeps
    have hcdone : c ∉ done := by
      intro hc
      exact (List.nodup_append.mp hnd).2.2 hc (List.mem_cons_self _ _)
    have hfin' : c ∉ (⟨done.reverse, [], done⟩ : DfsState).finished := by
      intro h
      exact hcdone (List.mem_reverse.mp h)
    have hnode : dfsNode g (fuel + 1) ⟨done.reverse, [], done⟩ c =
        .ok ⟨(done ++ [c]).reverse, [], done ++ [c]⟩ := by
      rw [dfsNode_succ, if_neg hfin', if_neg (by intro h; cases h)]
      rw [show depsOf g c = [] from hdeps c (List.mem_cons_self _ _), dfsList_nil]
      simp [List.erase_cons_head]
    simp only [sortLoop]
    rw [if_neg hfin', hnode]
    have hih := ih (done ++ [c])
      (by simpa [List.append_assoc] using hnd)
      (fun i hi => hdeps i (List.mem_cons_of_mem _ hi))
    show sortLoop g (fuel + 1) ⟨(done ++ [c]).reverse, [], done ++ [c]⟩ cs =
      .ok ⟨(done ++ c :: cs).reverse, [], done ++ c :: cs⟩
    rw [hih]
    simp [List.append_assoc]

/-- **C3 (amended).** On a dependency-closed collection,
`topological_sort` fails with `DuplicateId` exactly when two commands
share an id — any id, zero included (the code checks all ids, not only
nonzero ones); with duplicate-free ids it fails with `CycleDetected`
exactly when the dependency graph has a cycle, and otherwise returns a
permutation of the input in which every dependency appears before its
depender; commands without dependencies keep their input order. -/
theorem topological_sort_spec (g : Graph) (order : List Int)
    (hclosed : ∀ i ∈ order, ∀ d ∈ depsOf g i, d ∈ order) :
    (topological_sort g order = .error .duplicateId ↔ ¬ order.Nodup) ∧
    (order.Nodup →
      (topological_sort g order = .error .cycleDetected ↔
        ∃ v ∈ order, Relation.TransGen (Edge g) v v)) ∧
    (order.Nodup → ∀ l, topological_sort g order = .ok l →
      l.Perm order ∧ TopoSorted g l) ∧
    (order.Nodup → (∀ i ∈ order, depsOf g i = []) →
      topological_sort g order = .ok order) := by
  by_cases hnd : order.Nodup
  case neg =>
    have hts : topological_sort g order = .error .duplicateId := by
      rw [topological_sort, if_pos hnd]
    exact ⟨by simp [hts, hnd], fun h => absurd h hnd, fun h => absurd h hnd,
      fun h => absurd h hnd⟩
  case pos =>
    have hts : topological_sort g order =
        match sortLoop g (sortFuel g order) ⟨[], [], []⟩ order with
        | .error e => .error e
        | .ok st => .ok st.sorted := by
      rw [topological_sort, if_neg (not_not_intro hnd)]
    have hinv0 : DfsInv g ⟨[], [], []⟩ := by
      refine ⟨rfl, List.nodup_nil, List.nodup_nil, ?_, topoSorted_nil g⟩
      intro x hx
      cases hx
    have hfuel0 : freshCount order ⟨[], [], []⟩ < sortFuel g order := by
      unfold freshCount sortFuel
      have h1 := List.length_filter_le
        (fun x => decide (x ∉ (⟨[], [], []⟩ : DfsState).visiting)) order.dedup
      have h2 : order.dedup.length ≤ order.length := (List.dedup_sublist order).length_le
      have h3 : order.length ≤ (idUniverse g order).length := by
        unfold idUniverse
        simp only [List.length_append]
        omega
      omega
    have hS := sortLoop_sound g order hclosed (sortFuel g order) order ⟨[], [], []⟩
      (fun c hc => hc) rfl (by intro x hx; cases hx) hinv0 hfuel0
    have hindep : (∀ i ∈ order, depsOf g i = []) →
        sortLoop g (sortFuel g order) ⟨[], [], []⟩ order =
          .ok ⟨order.reverse, [], order⟩ := by
      intro hdeps
      have h := sortLoop_indep g ((idUniverse g order).length) order []
        (by simpa using hnd) hdeps
      simp only [List.reverse_nil, List.nil_append] at h
      exact h
    cases hrun : sortLoop g (sortFuel g order) ⟨[], [], []⟩ order with
    | error e =>
      cases e with
      | outOfFuel => exact absurd hrun hS.1.1
      | duplicateId => exact absurd hrun hS.1.2
      | cycleDetected =>
        have hts' : topological_sort g order = .error .cycleDetected := by
          rw [hts, hrun]
        refine ⟨by simp [hts', hnd], ?_, ?_, ?_⟩
        · intro _
          rw [hts']
          exact ⟨fun _ => hS.2.2 hrun, fun _ => rfl⟩
        · intro _ l hl
          rw [hts'] at hl
          cases hl
        · intro _ hdeps
          exfalso
          have h := hindep hdeps
          rw [hrun] at h
          cases h
    | ok stf =>
      obtain ⟨hvisF, hsortFC, hinvF, hfinAll, -⟩ := hS.2.1 stf hrun
      obtain ⟨hfinRevF, hndF, -, -, htopoF⟩ := hinvF
      have hts' : topological_sort g order = .ok stf.sorted := by
        rw [hts, hrun]
      have hmemF : ∀ a, a ∈ stf.sorted ↔ a ∈ order := by
        intro a
        constructor
        · exact hsortFC a
        · intro ha
          have h := hfinAll a ha
          rw [hfinRevF] at h
          exact List.mem_reverse.mp h
      have hperm : stf.sorted.Perm order :=
        (List.perm_ext_iff_of_nodup hndF hnd).mpr hmemF
      refine ⟨by simp [hts', hnd], ?_, ?_, ?_⟩
      · intro _
        rw [hts']
        constructor
        · intro h
          cases h
        · rintro ⟨v, hv, hcyc⟩
          exfalso
          exact topoSorted_no_cycle hndF htopoF v ((hmemF v).mpr hv) hcyc
      · intro _ l hl
        rw [hts'] at hl
        injection hl with h2
        subst h2
        exact ⟨hperm, htopoF⟩
      · intro _ hdeps
        have h := hindep hdeps
        rw [hrun] at h
        injection h with h2
        rw [hts', h2]

/-- **C3 (amended).** On a dependency-closed collection,
`topological_sort` fails with `DuplicateId` exactly when two commands
share an id — any id, zero included (the code checks every id, not only
nonzero ones); with duplicate-free ids it fails with `CycleDetected`
exactly when the dependency graph has a cycle, and otherwise returns a
permutation of the input in which every dependency appears before its
depender; commands without dependencies keep their input order. -/
theorem topological_sort_correct (g : Graph) (order : List Int)
    (hclosed : ∀ i ∈ order, ∀ d ∈ depsOf g i, d ∈ order) :
    (topological_sort g order = .error .duplicateId ↔ ¬ order.Nodup) ∧
    (order.Nodup →
      (topological_sort g order = .error .cycleDetected ↔
        ∃ v ∈ order, Relation.TransGen (Edge g) v v)) ∧
    (order.Nodup → ∀ l, topological_sort g order = .ok l →
      l.Perm order ∧ TopoSorted g l) ∧
    (order.Nodup → (∀ i ∈ order, depsOf g i = []) →
      topological_sort g order = .ok order) :=
  topological_sort_spec g order hclosed

/-- Counterexample to C3 as stated: two commands that share only the
default id `0` — so no two commands share a nonzero id, and the
dependency graph (empty) has no cycle — are nevertheless rejected with
`DuplicateId`. -/
theorem topological_sort_zero_id_counterexample :
    topological_sort [] [0, 0] = .error .duplicateId ∧
    (∀ i ∈ ([0, 0] : List Int), i = 0) ∧
    (∀ v : Int, ¬ Relation.TransGen (Edge []) v v) := by
  refine ⟨rfl, by decide, ?_⟩
  intro v h
  cases h with
  | single he => exact absurd he (by simp [Edge, depsOf, List.lookup])
  | tail h' he => exact absurd he (by simp [Edge, depsOf, List.lookup])

/-- Witness for the amended C3 at the diamond job
`{1, 2 → 1, 3 → 1, 4 → 2  3}`. -/
theorem topological_sort_correct_witness :
    (∀ i ∈ ([1, 2, 3, 4] : List Int),
      ∀ d ∈ depsOf [(1, []), (2, [1]), (3, [1]), (4, [2, 3])] i,
      d ∈ ([1, 2, 3, 4] : List Int)) ∧
    ((topological_sort [(1, []), (2, [1]), (3, [1]), (4, [2, 3])] [1, 2, 3, 4] =
        .error .duplicateId ↔ ¬ ([1, 2, 3, 4] : List Int).Nodup) ∧
      (([1, 2, 3, 4] : List Int).Nodup →
        (topological_sort [(1, []), (2, [1]), (3, [1]), (4, [2, 3])] [1, 2, 3, 4] =
            .error .cycleDetected ↔
          ∃ v ∈ ([1, 2, 3, 4] : List Int),
            Relation.TransGen (Edge [(1, []), (2, [1]), (3, [1]), (4, [2, 3])]) v v)) ∧
      (([1, 2, 3, 4] : List Int).Nodup → ∀ l,
        topological_sort [(1, []), (2, [1]), (3, [1]), (4, [2, 3])] [1, 2, 3, 4] =
          .ok l →
        l.Perm [1, 2, 3, 4] ∧ TopoSorted [(1, []), (2, [1]), (3, [1]), (4, [2, 3])] l) ∧
      (([1, 2, 3, 4] : List Int).Nodup →
        (∀ i ∈ ([1, 2, 3, 4] : List Int),
          depsOf [(1, []), (2, [1]), (3, [1]), (4, [2, 3])] i = []) →
        topological_sort [(1, []), (2, [1]), (3, [1]), (4, [2, 3])] [1, 2, 3, 4] =
          .ok [1, 2, 3, 4])) :=
  ⟨by decide,
    topological_sort_correct [(1, []), (2, [1]), (3, [1]), (4, [2, 3])] [1, 2, 3, 4]
      (by decide)⟩

/-- **C10.** The DFS follows dependency object references wherever they
lead, so a dependency that is not a member of the input collection is
still visited and emitted: sorting the one-command collection `[1]`,
where command 1 depends on command 2, returns `[2, 1]` — longer than the
input and containing the non-member 2. -/
theorem topological_sort_emits_nonmembers :
    topological_sort [(1, [2]), (2, [])] [1] = .ok [2, 1] ∧
    (2 : Int) ∉ ([1] : List Int) ∧
    ([1] : List Int).length < ([2, 1] : List Int).length := by
  refine ⟨?_, by decide, by decide⟩
  rw [topological_sort, if_neg (by decide),
    show sortFuel [(1, [2]), (2, [])] [1] = 3 + 1 + 1 from rfl]
  simp [sortLoop, dfsNode_succ, dfsList_cons, dfsList_nil, depsOf, List.lookup]

/-! ## Worker pool transition system: basic lemmas -/

theorem workers_set_cases {l : List WorkerPhase} {w w' : Nat}
    {ph ph' : WorkerPhase} (h : (l.set w ph)[w']? = some ph') :
    (w = w' ∧ ph' = ph ∧ w < l.length) ∨ (w ≠ w' ∧ l[w']? = some ph') := by
  rw [List.getElem?_set] at h
  by_cases he : w = w'
  · rw [if_pos he] at h
    by_cases hlt : w < l.length
    · rw [if_pos hlt] at h
      injection h with h2
      exact Or.inl ⟨he, h2.symm, hlt⟩
    · rw [if_neg hlt] at h
      cases h
  · rw [if_neg he] at h
    exact Or.inr ⟨he, h⟩

theorem countP_set_add {α : Type} {l : List α} {w : Nat} {old : α}
    (hw : l[w]? = some old) (p : α → Bool) (new : α) :
    (l.set w new).countP p + (if p old then 1 else 0) =
      l.countP p + (if p new then 1 else 0) := by
  induction l generalizing w with
  | nil => cases hw
  | cons x xs ih =>
    cases w with
    | zero =>
      obtain rfl : x = old := by simpa using hw
      simp only [List.set, List.countP_cons]
      omega
    | succ w' =>
      have hw' : xs[w']? = some old := by simpa using hw
      simp only [List.set, List.countP_cons]
      have h := ih hw'
      omega

theorem writeCount_append (log : List Event) (ev : Event) (c : Nat) :
    writeCount (log ++ [ev]) c =
      writeCount log c + (if ev.isWriteOf c then 1 else 0) := by
  by_cases h : ev.isWriteOf c <;>
    simp [writeCount, List.filter_append, List.filter_cons, h]

theorem reconnectCount_append (log : List Event) (ev : Event) :
    reconnectCount (log ++ [ev]) =
      reconnectCount log + (if ev.isReconnect then 1 else 0) := by
  by_cases h : ev.isReconnect <;>
    simp [reconnectCount, List.filter_append, List.filter_cons, h]

theorem settleCmd_workers (cmds : List WCmd) (s : PoolState) (c : Nat)
    (ev : Event) : (settleCmd cmds s c ev).workers = s.workers := by
  unfold settleCmd
  split <;> rfl

theorem settleCmd_queue (cmds : List WCmd) (s : PoolState) (c : Nat)
    (ev : Event) : (settleCmd cmds s c ev).queue = s.queue := by
  unfold settleCmd
  split <;> rfl

theorem settleCmd_log_cases (cmds : List WCmd) (s : PoolState) (c : Nat)
    (ev : Event) :
    (settleCmd cmds s c ev).log = s.log ++ [ev] ∨
      (settleCmd cmds s c ev).log = s.log := by
  unfold settleCmd
  split
  · exact Or.inl rfl
  · exact Or.inr rfl

theorem settleCmd_completed_mono (cmds : List WCmd) (s : PoolState) (c : Nat)
    (ev : Event) : ∀ x ∈ s.completed, x ∈ (settleCmd cmds s c ev).completed := by
  intro x hx
  unfold settleCmd
  split
  · exact List.mem_cons_of_mem _ hx
  · exact hx

theorem settleCmd_settled_mono (cmds : List WCmd) (s : PoolState) (c : Nat)
    (ev : Event) : ∀ x ∈ s.settled, x ∈ (settleCmd cmds s c ev).settled := by
  intro x hx
  unfold settleCmd
  split
  · exact List.mem_cons_of_mem _ hx
  · exact hx

theorem settleCmd_settles (cmds : List WCmd) (s : PoolState) (c : Nat)
    (ev : Event) (hslot : (cmds.getD c ⟨"", [], false⟩).hasSlot = true) :
    c ∈ (settleCmd cmds s c ev).settled := by
  unfold settleCmd
  split
  · exact List.mem_cons_self _ _
  · rename_i hcond
    rw [not_and_or, not_not] at hcond
    rcases hcond with h | h
    · exact absurd hslot h
    · exact h

/-- Completion flags only ever get set, never cleared. -/
theorem step_completed_mono {cmds : List WCmd} {s s' : PoolState}
    (h : Step cmds s s') : ∀ x ∈ s.completed, x ∈ s'.completed := by
  cases h with
  | settleOk w c r hw =>
    exact settleCmd_completed_mono cmds (setWorker s w .idle) c (.settleResult c)
  | settleAuthLost w c hw =>
    exact settleCmd_completed_mono cmds (setWorker s w .idle) c (.settleError c)
  | settleErr w c hw =>
    exact settleCmd_completed_mono cmds (setWorker s w (.settledErr c)) c (.settleError c)
  | _ => exact fun x hx => hx

theorem step_settled_mono {cmds : List WCmd} {s s' : PoolState}
    (h : Step cmds s s') : ∀ x ∈ s.settled, x ∈ s'.settled := by
  cases h with
  | settleOk w c r hw =>
    exact settleCmd_settled_mono cmds (setWorker s w .idle) c (.settleResult c)
  | settleAuthLost w c hw =>
    exact settleCmd_settled_mono cmds (setWorker s w .idle) c (.settleError c)
  | settleErr w c hw =>
    exact settleCmd_settled_mono cmds (setWorker s w (.settledErr c)) c (.settleError c)
  | _ => exact fun x hx => hx

theorem pastDepWait_not_idle {c : Nat} : ¬ PastDepWait .idle c := by
  rintro (h | ⟨r, h⟩ | h | ⟨r, h⟩ | h | h) <;> cases h

theorem pastDepWait_not_gotCmd {c c' : Nat} : ¬ PastDepWait (.gotCmd c) c' := by
  rintro (h | ⟨r, h⟩ | h | ⟨r, h⟩ | h | h) <;> cases h

theorem pastDepWait_toSend {c c' : Nat} (h : PastDepWait (.toSend c) c') :
    c' = c := by
  rcases h with h | ⟨r, h⟩ | h | ⟨r, h⟩ | h | h <;> cases h <;> rfl

theorem pastDepWait_gotResp {c c' : Nat} {resp : Option String}
    (h : PastDepWait (.gotResp c resp) c') : c' = c := by
  rcases h with h | ⟨r, h⟩ | h | ⟨r, h⟩ | h | h <;> cases h <;> rfl

theorem pastDepWait_gotErr {c c' : Nat} (h : PastDepWait (.gotErr c) c') :
    c' = c := by
  rcases h with h | ⟨r, h⟩ | h | ⟨r, h⟩ | h | h <;> cases h <;> rfl

theorem pastDepWait_doneTask {c c' : Nat} {resp : Option String}
    (h : PastDepWait (.doneTask c resp) c') : c' = c := by
  rcases h with h | ⟨r, h⟩ | h | ⟨r, h⟩ | h | h <;> cases h <;> rfl

theorem pastDepWait_doneTaskErr {c c' : Nat} (h : PastDepWait (.doneTaskErr c) c') :
    c' = c := by
  rcases h with h | ⟨r, h⟩ | h | ⟨r, h⟩ | h | h <;> cases h <;> rfl

theorem pastDepWait_settledErr {c c' : Nat} (h : PastDepWait (.settledErr c) c') :
    c' = c := by
  rcases h with h | ⟨r, h⟩ | h | ⟨r, h⟩ | h | h <;> cases h <;> rfl

/-- The dependency invariant of every reachable pool state: every logged
socket write has all of its command's dependency completions set, and so
does every worker that is past its dependency wait. -/
theorem reach_deps_invariant (cmds : List WCmd) (q0 : List Nat) (nw : Nat) :
    ∀ s, Reach cmds (initState q0 nw) s →
      (∀ w c, Event.write w c ∈ s.log → ∀ d ∈ depsW cmds c, d ∈ s.completed) ∧
      (∀ (w : Nat) (ph : WorkerPhase) (c : Nat), s.workers[w]? = some ph →
        PastDepWait ph c → ∀ d ∈ depsW cmds c, d ∈ s.completed) := by
  intro s h
  induction h with
  | refl =>
    constructor
    · intro w c hev
      cases hev
    · intro w ph c hph hpast
      have hph' : (List.replicate nw WorkerPhase.idle)[w]? = some ph := hph
      obtain rfl := List.eq_of_mem_replicate (List.getElem?_mem hph')
      exact absurd hpast pastDepWait_not_idle
  | @tail b s2 hsteps hstep ih =>
    obtain ⟨ihlog, ihworker⟩ := ih
    have hmono := step_completed_mono hstep
    cases hstep with
    | dequeue w c rest hw hq =>
      constructor
      · intro w' c' hev d hd
        exact hmono d (ihlog w' c' hev d hd)
      · intro w' ph c' hph hpast
        rcases workers_set_cases hph with ⟨-, rfl, -⟩ | ⟨-, hget⟩
        · exact absurd hpast pastDepWait_not_gotCmd
        · exact fun d hd => hmono d (ihworker w' ph c' hget hpast d hd)
    | depsReady w c hw hdeps =>
      constructor
      · intro w' c' hev d hd
        exact hmono d (ihlog w' c' hev d hd)
      · intro w' ph c' hph hpast
        rcases workers_set_cases hph with ⟨-, rfl, -⟩ | ⟨-, hget⟩
        · obtain rfl := pastDepWait_toSend hpast
          exact hdeps
        · exact fun d hd => hmono d (ihworker w' ph c' hget hpast d hd)
    | sendReturn w c resp hw =>
      have hsend : ∀ d ∈ depsW cmds c, d ∈ b.completed :=
        ihworker w (.toSend c) c hw (Or.inl rfl)
      constructor
      · intro w' c' hev d hd
        rcases List.mem_append.mp hev with hold | hnew
        · exact hmono d (ihlog w' c' hold d hd)
        · have heq := List.mem_singleton.mp hnew
          injection heq with h1 h2
          subst h2
          exact hmono d (hsend d hd)
      · intro w' ph c' hph hpast
        rcases workers_set_cases hph with ⟨-, rfl, -⟩ | ⟨-, hget⟩
        · obtain rfl := pastDepWait_gotResp hpast
          exact fun d hd => hmono d (hsend d hd)
        · exact fun d hd => hmono d (ihworker w' ph c' hget hpast d hd)
    | sendRaise w c hw =>
      have hsend : ∀ d ∈ depsW cmds c, d ∈ b.completed :=
        ihworker w (.toSend c) c hw (Or.inl rfl)
      constructor
      · intro w' c' hev d hd
        rcases List.mem_append.mp hev with hold | hnew
        · exact hmono d (ihlog w' c' hold d hd)
        · have heq := List.mem_singleton.mp hnew
          injection heq with h1 h2
          subst h2
          exact hmono d (hsend d hd)
      · intro w' ph c' hph hpast
        rcases workers_set_cases hph with ⟨-, rfl, -⟩ | ⟨-, hget⟩
        · obtain rfl := pastDepWait_gotErr hpast
          exact fun d hd => hmono d (hsend d hd)
        · exact fun d hd => hmono d (ihworker w' ph c' hget hpast d hd)
    | taskDoneOk w c resp hw =>
      have hpast0 : ∀ d ∈ depsW cmds c, d ∈ b.completed :=
        ihworker w (.gotResp c resp) c hw (Or.inr (Or.inl ⟨resp, rfl⟩))
      constructor
      · intro w' c' hev d hd
        rcases List.mem_append.mp hev with hold | hnew
        · exact hmono d (ihlog w' c' hold d hd)
        · simp at hnew
      · intro w' ph c' hph hpast
        rcases workers_set_cases hph with ⟨-, rfl, -⟩ | ⟨-, hget⟩
        · obtain rfl := pastDepWait_doneTask hpast
          exact fun d hd => hmono d (hpast0 d hd)
        · exact fun d hd => hmono d (ihworker w' ph c' hget hpast d hd)
    | taskDoneErr w c hw =>
      have hpast0 : ∀ d ∈ depsW cmds c, d ∈ b.completed :=
        ihworker w (.gotErr c) c hw (Or.inr (Or.inr (Or.inl rfl)))
      constructor
      · intro w' c' hev d hd
        rcases List.mem_append.mp hev with hold | hnew
        · exact hmono d (ihlog w' c' hold d hd)
        · simp at hnew
      · intro w' ph c' hph hpast
        rcases workers_set_cases hph with ⟨-, rfl, -⟩ | ⟨-, hget⟩
        · obtain rfl := pastDepWait_doneTaskErr hpast
          exact fun d hd => hmono d (hpast0 d hd)
        · exact fun d hd => hmono d (ihworker w' ph c' hget hpast d hd)
    | settleOk w c r hw =>
      constructor
      · intro w' c' hev d hd
        have hev' : Event.write w' c' ∈ b.log := by
          rcases settleCmd_log_cases cmds (setWorker b w .idle) c
            (.settleResult c) with hlog | hlog
          · rw [hlog] at hev
            rcases List.mem_append.mp hev with hold | hnew
            · exact hold
            · simp at hnew
          · rw [hlog] at hev
            exact hev
        exact hmono d (ihlog w' c' hev' d hd)
      · intro w' ph c' hph hpast
        rw [settleCmd_workers cmds (setWorker b w .idle) c (.settleResult c)] at hph
        rcases workers_set_cases hph with ⟨-, rfl, -⟩ | ⟨-, hget⟩
        · exact absurd hpast pastDepWait_not_idle
        · exact fun d hd => hmono d (ihworker w' ph c' hget hpast d hd)
    | settleAuthLost w c hw =>
      constructor
      · intro w' c' hev d hd
        have hev' : Event.write w' c' ∈ b.log := by
          rcases settleCmd_log_cases cmds (setWorker b w .idle) c
            (.settleError c) with hlog | hlog
          · rw [hlog] at hev
            rcases List.mem_append.mp hev with hold | hnew
            · exact hold
            · simp at hnew
          · rw [hlog] at hev
            exact hev
        exact hmono d (ihlog w' c' hev' d hd)
      · intro w' ph c' hph hpast
        rw [settleCmd_workers cmds (setWorker b w .idle) c (.settleError c)] at hph
        rcases workers_set_cases hph with ⟨-, rfl, -⟩ | ⟨-, hget⟩
        · exact absurd hpast pastDepWait_not_idle
        · exact fun d hd => hmono d (ihworker w' ph c' hget hpast d hd)
    | settleErr w c hw =>
      have hpast0 : ∀ d ∈ depsW cmds c, d ∈ b.completed :=
        ihworker w (.doneTaskErr c) c hw (Or.inr (Or.inr (Or.inr (Or.inr (Or.inl rfl)))))
      constructor
      · intro w' c' hev d hd
        have hev' : Event.write w' c' ∈ b.log := by
          rcases settleCmd_log_cases cmds (setWorker b w (.settledErr c)) c
            (.settleError c) with hlog | hlog
          · rw [hlog] at hev
            rcases List.mem_append.mp hev with hold | hnew
            · exact hold
            · simp at hnew
          · rw [hlog] at hev
            exact hev
        exact hmono d (ihlog w' c' hev' d hd)
      · intro w' ph c' hph hpast
        rw [settleCmd_workers cmds (setWorker b w (.settledErr c)) c
          (.settleError c)] at hph
        rcases workers_set_cases hph with ⟨-, rfl, -⟩ | ⟨-, hget⟩
        · obtain rfl := pastDepWait_settledErr hpast
          exact fun d hd => hmono d (hpast0 d hd)
        · exact fun d hd => hmono d (ihworker w' ph c' hget hpast d hd)
    | reconnectStep w c hw =>
      constructor
      · intro w' c' hev d hd
        rcases List.mem_append.mp hev with hold | hnew
        · exact hmono d (ihlog w' c' hold d hd)
        · simp at hnew
      · intro w' ph c' hph hpast
        rcases workers_set_cases hph with ⟨-, rfl, -⟩ | ⟨-, hget⟩
        · exact absurd hpast pastDepWait_not_idle
        · exact fun d hd => hmono d (ihworker w' ph c' hget hpast d hd)

/-! ## Pool submission (C9) -/

/-- **C9.** After `pool_should_shutdown` is set, `queue_command` and
`queue_job` raise `PoolShuttingDown` and leave the queue unchanged; and
with the pool accepting, a `queue_job` whose commands have a duplicate id
or (on dependency-closed input) a dependency cycle raises the wrapped
validation `ValueError` with the queue unchanged. -/
theorem submission_failure_queue_unchanged (p : PoolSubmitState) (g : Graph)
    (order : List Int) (c : Int) :
    (p.pool_should_shutdown = true →
      queue_command p c = (p, some .poolShuttingDown) ∧
      queue_job p g order = (p, some .poolShuttingDown)) ∧
    (p.pool_should_shutdown = false → ¬ order.Nodup →
      queue_job p g order = (p, some .validationError)) ∧
    (p.pool_should_shutdown = false →
      (∀ i ∈ order, ∀ d ∈ depsOf g i, d ∈ order) → order.Nodup →
      (∃ v ∈ order, Relation.TransGen (Edge g) v v) →
      queue_job p g order = (p, some .validationError)) := by
  refine ⟨?_, ?_, ?_⟩
  · intro h
    constructor
    · rw [queue_command, if_pos h]
    · rw [queue_job, if_pos h]
  · intro h hdup
    rw [queue_job, if_neg (by simp [h])]
    have hts : topological_sort g order = .error .duplicateId := by
      rw [topological_sort, if_pos hdup]
    rw [hts]
  · intro h hcl hnd hcyc
    rw [queue_job, if_neg (by simp [h])]
    have hts := ((topological_sort_spec g order hcl).2.1 hnd).mpr hcyc
    rw [hts]

/-- Witness for C9: a shut-down pool rejects both entry points; an
accepting pool rejects the duplicate-id job `[0, 0]` and the two-command
cycle `{1 → 2, 2 → 1}`, each time leaving the queue as it was. -/
theorem submission_failure_queue_unchanged_witness :
    ((⟨[7], true⟩ : PoolSubmitState).pool_should_shutdown = true ∧
      queue_command ⟨[7], true⟩ 5 = (⟨[7], true⟩, some .poolShuttingDown) ∧
      queue_job ⟨[7], true⟩ [] [0, 0] = (⟨[7], true⟩, some .poolShuttingDown)) ∧
    queue_job ⟨[7], false⟩ [] [0, 0] = (⟨[7], false⟩, some .validationError) ∧
    queue_job ⟨[7], false⟩ [(1, [2]), (2, [1])] [1, 2] =
      (⟨[7], false⟩, some .validationError) :=
  ⟨⟨rfl, (submission_failure_queue_unchanged ⟨[7], true⟩ [] [0, 0] 5).1 rfl⟩,
    (submission_failure_queue_unchanged ⟨[7], false⟩ [] [0, 0] 5).2.1 rfl (by decide),
    (submission_failure_queue_unchanged ⟨[7], false⟩ [(1, [2]), (2, [1])] [1, 2] 5).2.2
      rfl (by decide) (by decide)
      ⟨1, by decide,
        Relation.TransGen.tail
          (Relation.TransGen.single
            (show (2 : Int) ∈ depsOf [(1, [2]), (2, [1])] 1 by decide))
          (show (1 : Int) ∈ depsOf [(1, [2]), (2, [1])] 2 by decide)⟩⟩

/-! ## Dependency respect (C5) -/

/-- **C5.** Dependency respect: in every reachable state of the worker
pool, every command whose text was written to a socket had all of its
dependencies' completion events set no later than the write (they are in
the completed set at the write and, completion being monotone under every
step, stay there), and likewise for every worker past its dependency
wait — the worker waits on all dependency completions before calling
`send_command`. -/
theorem dependency_respect (cmds : List WCmd) (q0 : List Nat) (nw : Nat)
    (s : PoolState) (hreach : Reach cmds (initState q0 nw) s) :
    (∀ w c, Event.write w c ∈ s.log → ∀ d ∈ depsW cmds c, d ∈ s.completed) ∧
    (∀ (w : Nat) (ph : WorkerPhase) (c : Nat), s.workers[w]? = some ph →
      PastDepWait ph c → ∀ d ∈ depsW cmds c, d ∈ s.completed) ∧
    (∀ s1 s2 : PoolState, Step cmds s1 s2 → ∀ x ∈ s1.completed, x ∈ s2.completed) :=
  ⟨(reach_deps_invariant cmds q0 nw s hreach).1,
    (reach_deps_invariant cmds q0 nw s hreach).2,
    fun _ _ hst => step_completed_mono hst⟩

/-- Witness for C5 at the freshly started pool with one queued command. -/
theorem dependency_respect_witness :
    Reach [WCmd.mk "say hi" [] true] (initState [0] 1) (initState [0] 1) ∧
    ((∀ w c, Event.write w c ∈ (initState [0] 1).log →
        ∀ d ∈ depsW [WCmd.mk "say hi" [] true] c, d ∈ (initState [0] 1).completed) ∧
      (∀ (w : Nat) (ph : WorkerPhase) (c : Nat),
        (initState [0] 1).workers[w]? = some ph → PastDepWait ph c →
        ∀ d ∈ depsW [WCmd.mk "say hi" [] true] c, d ∈ (initState [0] 1).completed) ∧
      (∀ s1 s2 : PoolState, Step [WCmd.mk "say hi" [] true] s1 s2 →
        ∀ x ∈ s1.completed, x ∈ s2.completed)) :=
  ⟨Relation.ReflTransGen.refl,
    dependency_respect [WCmd.mk "say hi" [] true] [0] 1 (initState [0] 1)
      Relation.ReflTransGen.refl⟩

/-! ## At-most-once delivery (C6) -/

theorem nodup_countP_le_one {l : List Nat} (h : l.Nodup) (c : Nat) :
    l.countP (fun c' => c' == c) ≤ 1 := by
  induction l with
  | nil => simp
  | cons x xs ih =>
    rw [List.countP_cons]
    rcases List.nodup_cons.mp h with ⟨hx, hxs⟩
    by_cases hxc : x = c
    · subst hxc
      have hz : xs.countP (fun c' => c' == x) = 0 := by
        rw [List.countP_eq_zero]
        intro a ha hcon
        rw [beq_iff_eq] at hcon
        subst hcon
        exact hx ha
      simp [hz]
    · have hb : (x == c) = false := by simp [hxc]
      have := ih hxs
      simp [hb]
      omega

theorem holdsPre_idle (c : Nat) : holdsPre .idle c = false := rfl

theorem holdsPre_gotCmd (c' c : Nat) : holdsPre (.gotCmd c') c = (c' == c) := rfl

theorem holdsPre_toSend (c' c : Nat) : holdsPre (.toSend c') c = (c' == c) := rfl

theorem holdsPre_gotResp (c' c : Nat) (r : Option String) :
    holdsPre (.gotResp c' r) c = false := rfl

theorem holdsPre_gotErr (c' c : Nat) : holdsPre (.gotErr c') c = false := rfl

theorem holdsPre_doneTask (c' c : Nat) (r : Option String) :
    holdsPre (.doneTask c' r) c = false := rfl

theorem holdsPre_doneTaskErr (c' c : Nat) : holdsPre (.doneTaskErr c') c = false := rfl

theorem holdsPre_settledErr (c' c : Nat) : holdsPre (.settledErr c') c = false := rfl

/-- The at-most-once counting invariant: a command occupies at most one
slot among the queue, a worker that has not yet written it, and the
write log — so once written it can never be written again. -/
theorem reach_at_most_once_inv (cmds : List WCmd) (q0 : List Nat) (nw : Nat)
    (hnd : q0.Nodup) :
    ∀ s, Reach cmds (initState q0 nw) s → ∀ c : Nat,
      s.queue.countP (fun c' => c' == c) +
        s.workers.countP (fun ph => holdsPre ph c) + writeCount s.log c ≤ 1 := by
  intro s h
  induction h with
  | refl =>
    intro c
    have h1 : q0.countP (fun c' => c' == c) ≤ 1 := nodup_countP_le_one hnd c
    have h2 : (List.replicate nw WorkerPhase.idle).countP
        (fun ph => holdsPre ph c) = 0 := by
      rw [List.countP_eq_zero]
      intro ph hph
      obtain rfl := List.eq_of_mem_replicate hph
      exact Bool.false_ne_true
    have h3 : writeCount [] c = 0 := rfl
    show q0.countP (fun c' => c' == c) +
      (List.replicate nw WorkerPhase.idle).countP (fun ph => holdsPre ph c) +
      writeCount [] c ≤ 1
    omega
  | @tail b s2 hsteps hstep ih =>
    intro c
    have ihc := ih c
    cases hstep with
    | dequeue w c0 rest hw hq =>
      have hcw := countP_set_add hw (fun ph => holdsPre ph c) (.gotCmd c0)
      rw [hq, List.countP_cons] at ihc
      show rest.countP (fun c' => c' == c) +
          (b.workers.set w (.gotCmd c0)).countP (fun ph => holdsPre ph c) +
          writeCount b.log c ≤ 1
      by_cases hc : c0 = c
      · subst hc
        simp [holdsPre_idle, holdsPre_gotCmd, holdsPre_toSend, holdsPre_gotResp, holdsPre_gotErr, holdsPre_doneTask, holdsPre_doneTaskErr, holdsPre_settledErr] at hcw
        simp at ihc
        omega
      · simp [holdsPre_idle, holdsPre_gotCmd, holdsPre_toSend, holdsPre_gotResp, holdsPre_gotErr, holdsPre_doneTask, holdsPre_doneTaskErr, holdsPre_settledErr, hc] at hcw ihc
        omega
    | depsReady w c0 hw hdeps =>
      have hcw := countP_set_add hw (fun ph => holdsPre ph c) (.toSend c0)
      show b.queue.countP (fun c' => c' == c) +
          (b.workers.set w (.toSend c0)).countP (fun ph => holdsPre ph c) +
          writeCount b.log c ≤ 1
      by_cases hc : c0 = c
      · subst hc
        simp [holdsPre_idle, holdsPre_gotCmd, holdsPre_toSend, holdsPre_gotResp, holdsPre_gotErr, holdsPre_doneTask, holdsPre_doneTaskErr, holdsPre_settledErr] at hcw
        omega
      · simp [holdsPre_idle, holdsPre_gotCmd, holdsPre_toSend, holdsPre_gotResp, holdsPre_gotErr, holdsPre_doneTask, holdsPre_doneTaskErr, holdsPre_settledErr, hc] at hcw
        omega
    | sendReturn w c0 resp hw =>
      have hcw := countP_set_add hw (fun ph => holdsPre ph c) (.gotResp c0 resp)
      show b.queue.countP (fun c' => c' == c) +
          (b.workers.set w (.gotResp c0 resp)).countP (fun ph => holdsPre ph c) +
          writeCount (b.log ++ [Event.write w c0]) c ≤ 1
      rw [writeCount_append]
      by_cases hc : c0 = c
      · subst hc
        simp [holdsPre_idle, holdsPre_gotCmd, holdsPre_toSend, holdsPre_gotResp, holdsPre_gotErr, holdsPre_doneTask, holdsPre_doneTaskErr, holdsPre_settledErr] at hcw
        simp [Event.isWriteOf]
        omega
      · simp [holdsPre_idle, holdsPre_gotCmd, holdsPre_toSend, holdsPre_gotResp, holdsPre_gotErr, holdsPre_doneTask, holdsPre_doneTaskErr, holdsPre_settledErr, hc] at hcw
        simp [Event.isWriteOf, hc]
        omega
    | sendRaise w c0 hw =>
      have hcw := countP_set_add hw (fun ph => holdsPre ph c) (.gotErr c0)
      show b.queue.countP (fun c' => c' == c) +
          (b.workers.set w (.gotErr c0)).countP (fun ph => holdsPre ph c) +
          writeCount (b.log ++ [Event.write w c0]) c ≤ 1
      rw [writeCount_append]
      by_cases hc : c0 = c
      · subst hc
        simp [holdsPre_idle, holdsPre_gotCmd, holdsPre_toSend, holdsPre_gotResp, holdsPre_gotErr, holdsPre_doneTask, holdsPre_doneTaskErr, holdsPre_settledErr] at hcw
        simp [Event.isWriteOf]
        omega
      · simp [holdsPre_idle, holdsPre_gotCmd, holdsPre_toSend, holdsPre_gotResp, holdsPre_gotErr, holdsPre_doneTask, holdsPre_doneTaskErr, holdsPre_settledErr, hc] at hcw
        simp [Event.isWriteOf, hc]
        omega
    | taskDoneOk w c0 resp hw =>
      have hcw := countP_set_add hw (fun ph => holdsPre ph c) (.doneTask c0 resp)
      show b.queue.countP (fun c' => c' == c) +
          (b.workers.set w (.doneTask c0 resp)).countP (fun ph => holdsPre ph c) +
          writeCount (b.log ++ [Event.taskDone w c0]) c ≤ 1
      rw [writeCount_append]
      simp [holdsPre_idle, holdsPre_gotCmd, holdsPre_toSend, holdsPre_gotResp, holdsPre_gotErr, holdsPre_doneTask, holdsPre_doneTaskErr, holdsPre_settledErr] at hcw
      simp [Event.isWriteOf]
      omega
    | taskDoneErr w c0 hw =>
      have hcw := countP_set_add hw (fun ph => holdsPre ph c) (.doneTaskErr c0)
      show b.queue.countP (fun c' => c' == c) +
          (b.workers.set w (.doneTaskErr c0)).countP (fun ph => holdsPre ph c) +
          writeCount (b.log ++ [Event.taskDone w c0]) c ≤ 1
      rw [writeCount_append]
      simp [holdsPre_idle, holdsPre_gotCmd, holdsPre_toSend, holdsPre_gotResp, holdsPre_gotErr, holdsPre_doneTask, holdsPre_doneTaskErr, holdsPre_settledErr] at hcw
      simp [Event.isWriteOf]
      omega
    | settleOk w c0 r hw =>
      have hcw := countP_set_add hw (fun ph => holdsPre ph c) WorkerPhase.idle
      simp [holdsPre_idle, holdsPre_gotCmd, holdsPre_toSend, holdsPre_gotResp, holdsPre_gotErr, holdsPre_doneTask, holdsPre_doneTaskErr, holdsPre_settledErr] at hcw
      rcases settleCmd_log_cases cmds (setWorker b w .idle) c0
        (.settleResult c0) with hlog | hlog
      · rw [settleCmd_queue, settleCmd_workers, hlog, writeCount_append]
        simp only [setWorker]
        simp [Event.isWriteOf]
        omega
      · rw [settleCmd_queue, settleCmd_workers, hlog]
        simp only [setWorker]
        simp
        omega
    | settleAuthLost w c0 hw =>
      have hcw := countP_set_add hw (fun ph => holdsPre ph c) WorkerPhase.idle
      simp [holdsPre_idle, holdsPre_gotCmd, holdsPre_toSend, holdsPre_gotResp, holdsPre_gotErr, holdsPre_doneTask, holdsPre_doneTaskErr, holdsPre_settledErr] at hcw
      rcases settleCmd_log_cases cmds (setWorker b w .idle) c0
        (.settleError c0) with hlog | hlog
      · rw [settleCmd_queue, settleCmd_workers, hlog, writeCount_append]
        simp only [setWorker]
        simp [Event.isWriteOf]
        omega
      · rw [settleCmd_queue, settleCmd_workers, hlog]
        simp only [setWorker]
        simp
        omega
    | settleErr w c0 hw =>
      have hcw := countP_set_add hw (fun ph => holdsPre ph c) (WorkerPhase.settledErr c0)
      simp [holdsPre_idle, holdsPre_gotCmd, holdsPre_toSend, holdsPre_gotResp, holdsPre_gotErr, holdsPre_doneTask, holdsPre_doneTaskErr, holdsPre_settledErr] at hcw
      rcases settleCmd_log_cases cmds (setWorker b w (.settledErr c0)) c0
        (.settleError c0) with hlog | hlog
      · rw [settleCmd_queue, settleCmd_workers, hlog, writeCount_append]
        simp only [setWorker]
        simp [Event.isWriteOf]
        omega
      · rw [settleCmd_queue, settleCmd_workers, hlog]
        simp only [setWorker]
        simp
        omega
    | reconnectStep w c0 hw =>
      have hcw := countP_set_add hw (fun ph => holdsPre ph c) WorkerPhase.idle
      show b.queue.countP (fun c' => c' == c) +
          (b.workers.set w WorkerPhase.idle).countP (fun ph => holdsPre ph c) +
          writeCount (b.log ++ [Event.reconnect w]) c ≤ 1
      rw [writeCount_append]
      simp [holdsPre_idle, holdsPre_gotCmd, holdsPre_toSend, holdsPre_gotResp, holdsPre_gotErr, holdsPre_doneTask, holdsPre_doneTaskErr, holdsPre_settledErr] at hcw
      simp [Event.isWriteOf]
      omega

/-- A worker standing at `settledErr c` really did settle `c` whenever
`c` carries a result future: the error branch calls `set_command_error`
before the reconnect. -/
theorem reach_settledErr_settled (cmds : List WCmd) (q0 : List Nat) (nw : Nat) :
    ∀ s, Reach cmds (initState q0 nw) s →
      ∀ (w c : Nat), s.workers[w]? = some (WorkerPhase.settledErr c) →
        hasSlotW cmds c = true → c ∈ s.settled := by
  intro s h
  induction h with
  | refl =>
    intro w c hph hslot
    have hph' : (List.replicate nw WorkerPhase.idle)[w]? =
        some (.settledErr c) := hph
    have hmem := List.eq_of_mem_replicate (List.getElem?_mem hph')
    cases hmem
  | @tail b s2 hsteps hstep ih =>
    intro w c hph hslot
    have hsmono := step_settled_mono hstep
    cases hstep with
    | dequeue w0 c0 rest hw hq =>
      rcases workers_set_cases hph with ⟨-, heq, -⟩ | ⟨-, hget⟩
      · cases heq
      · exact hsmono c (ih w c hget hslot)
    | depsReady w0 c0 hw hdeps =>
      rcases workers_set_cases hph with ⟨-, heq, -⟩ | ⟨-, hget⟩
      · cases heq
      · exact hsmono c (ih w c hget hslot)
    | sendReturn w0 c0 resp hw =>
      rcases workers_set_cases hph with ⟨-, heq, -⟩ | ⟨-, hget⟩
      · cases heq
      · exact hsmono c (ih w c hget hslot)
    | sendRaise w0 c0 hw =>
      rcases workers_set_cases hph with ⟨-, heq, -⟩ | ⟨-, hget⟩
      · cases heq
      · exact hsmono c (ih w c hget hslot)
    | taskDoneOk w0 c0 resp hw =>
      rcases workers_set_cases hph with ⟨-, heq, -⟩ | ⟨-, hget⟩
      · cases heq
      · exact hsmono c (ih w c hget hslot)
    | taskDoneErr w0 c0 hw =>
      rcases workers_set_cases hph with ⟨-, heq, -⟩ | ⟨-, hget⟩
      · cases heq
      · exact hsmono c (ih w c hget hslot)
    | settleOk w0 c0 r hw =>
      rw [settleCmd_workers cmds (setWorker b w0 .idle) c0 (.settleResult c0)] at hph
      rcases workers_set_cases hph with ⟨-, heq, -⟩ | ⟨-, hget⟩
      · cases heq
      · exact hsmono c (ih w c hget hslot)
    | settleAuthLost w0 c0 hw =>
      rw [settleCmd_workers cmds (setWorker b w0 .idle) c0 (.settleError c0)] at hph
      rcases workers_set_cases hph with ⟨-, heq, -⟩ | ⟨-, hget⟩
      · cases heq
      · exact hsmono c (ih w c hget hslot)
    | settleErr w0 c0 hw =>
      rw [settleCmd_workers cmds (setWorker b w0 (.settledErr c0)) c0
        (.settleError c0)] at hph
      rcases workers_set_cases hph with ⟨-, heq, -⟩ | ⟨-, hget⟩
      · injection heq with h2
        subst h2
        exact settleCmd_settles cmds (setWorker b w0 (.settledErr c)) c
          (.settleError c) hslot
      · exact hsmono c (ih w c hget hslot)
    | reconnectStep w0 c0 hw =>
      rcases workers_set_cases hph with ⟨-, heq, -⟩ | ⟨-, hget⟩
      · cases heq
      · exact hsmono c (ih w c hget hslot)

/-- **C6.** At-most-once delivery on transport failure: starting from a
duplicate-free queue, in every reachable pool state each command's text
has been written to a socket at most once; once written, the command is
no longer in the queue (it is never re-enqueued, so never re-sent after
the reconnect); a worker that has taken the error branch for command `c`
has settled `c` with the transport error whenever `c` carries a result
future; and from that point the worker's step reconnects the connection
and returns the worker to the queue. -/
theorem at_most_once_delivery (cmds : List WCmd) (q0 : List Nat) (nw : Nat)
    (hnd : q0.Nodup) (s : PoolState) (hreach : Reach cmds (initState q0 nw) s)
    (c : Nat) :
    writeCount s.log c ≤ 1 ∧
    ((∃ w, Event.write w c ∈ s.log) → c ∉ s.queue) ∧
    (∀ w : Nat, s.workers[w]? = some (WorkerPhase.settledErr c) →
      hasSlotW cmds c = true → c ∈ s.settled) ∧
    (∀ w : Nat, s.workers[w]? = some (WorkerPhase.settledErr c) →
      Step cmds s { s with workers := s.workers.set w .idle,
                           log := s.log ++ [Event.reconnect w] }) := by
  have hinv := reach_at_most_once_inv cmds q0 nw hnd s hreach c
  refine ⟨by omega, ?_, ?_, ?_⟩
  · rintro ⟨w, hev⟩ hcq
    have h1 : 0 < s.queue.countP (fun c' => c' == c) :=
      List.countP_pos_iff.mpr ⟨c, hcq, by simp⟩
    have h2 : 0 < writeCount s.log c := by
      have hmem : Event.write w c ∈ s.log.filter (Event.isWriteOf · c) :=
        List.mem_filter.mpr ⟨hev, by simp [Event.isWriteOf]⟩
      exact List.length_pos.mpr (List.ne_nil_of_mem hmem)
    omega
  · intro w hph hslot
    exact reach_settledErr_settled cmds q0 nw s hreach w c hph hslot
  · intro w hph
    exact Step.reconnectStep s w c hph

/-- Witness for C6 at the freshly started pool with two queued commands. -/
theorem at_most_once_delivery_witness :
    ([0, 1] : List Nat).Nodup ∧
    Reach [WCmd.mk "a" [] true, WCmd.mk "b" [] true] (initState [0, 1] 1)
      (initState [0, 1] 1) ∧
    (writeCount (initState [0, 1] 1).log 0 ≤ 1 ∧
      ((∃ w, Event.write w 0 ∈ (initState [0, 1] 1).log) →
        0 ∉ (initState [0, 1] 1).queue) ∧
      (∀ w : Nat, (initState [0, 1] 1).workers[w]? = some (WorkerPhase.settledErr 0) →
        hasSlotW [WCmd.mk "a" [] true, WCmd.mk "b" [] true] 0 = true →
        0 ∈ (initState [0, 1] 1).settled) ∧
      (∀ w : Nat, (initState [0, 1] 1).workers[w]? = some (WorkerPhase.settledErr 0) →
        Step [WCmd.mk "a" [] true, WCmd.mk "b" [] true] (initState [0, 1] 1)
          { initState [0, 1] 1 with
              workers := (initState [0, 1] 1).workers.set w .idle,
              log := (initState [0, 1] 1).log ++ [Event.reconnect w] })) :=
  ⟨by decide, Relation.ReflTransGen.refl,
    at_most_once_delivery [WCmd.mk "a" [] true, WCmd.mk "b" [] true] [0, 1] 1
      (by decide) (initState [0, 1] 1) Relation.ReflTransGen.refl 0⟩

/-! ## Auth-lost handling (C8) -/

/-- **C8 (amended).** When the server answers an in-session command with
a frame whose response id is `-1`, `send_command` returns the null
result; the worker then fails that command with
`ConnectionError("RCON authentication failed")` — settling it when it
carries a result future — and goes straight back to the queue for the
next command **without** reconnecting (only the raised
`TimeoutError`/`ConnectionError` branch reconnects). -/
theorem authlost_settles_without_reconnect (cmds : List WCmd) (r : Int)
    (cmd : List Nat) (hr : r ≠ -1) :
    (∀ frames : List (Int × List Nat), (∀ f ∈ frames, ValidFrame f) →
      reassemble (r + 1) (r + 1 + 1000) [] frames = some none →
      send_command r cmd (encodeFrames frames) =
        .ok ⟨none, r + 1, format_packet cmd .COMMAND_PACKET (r + 1)
          ++ format_packet [] .DUMMY_PACKET (r + 1 + 1000)⟩) ∧
    (∀ (s : PoolState) (w c : Nat),
      s.workers[w]? = some (WorkerPhase.doneTask c none) →
      Step cmds s (authLostNext cmds s w c) ∧
      (authLostNext cmds s w c).workers[w]? = some WorkerPhase.idle ∧
      reconnectCount (authLostNext cmds s w c).log = reconnectCount s.log ∧
      (hasSlotW cmds c = true → c ∈ (authLostNext cmds s w c).settled)) := by
  constructor
  · intro frames hf hres
    exact send_command_encodeFrames r cmd hr frames hf none hres
  · intro s w c hw
    refine ⟨Step.settleAuthLost s w c hw, ?_, ?_, ?_⟩
    · have hre : (authLostNext cmds s w c).workers =
          (s.workers.set w WorkerPhase.idle) :=
        settleCmd_workers cmds (setWorker s w .idle) c (.settleError c)
      rw [hre]
      have hlt : w < s.workers.length :=
        (List.getElem?_eq_some_iff.mp hw).1
      exact List.getElem?_set_self hlt
    · show reconnectCount
        (settleCmd cmds (setWorker s w .idle) c (.settleError c)).log =
          reconnectCount s.log
      rcases settleCmd_log_cases cmds (setWorker s w .idle) c
        (.settleError c) with hlog | hlog
      · rw [hlog, reconnectCount_append]
        simp [Event.isReconnect, setWorker]
      · rw [hlog]
        rfl
    · intro hslot
      exact settleCmd_settles cmds (setWorker s w .idle) c (.settleError c) hslot

/-- Counterexample to C8 as stated: a complete two-command execution in
which the server answers command 0 with response id `-1` (the worker
settles it with the authentication error) and the worker then processes
command 1 on the very same connection — its text is written, a response
arrives — while the log holds no reconnect at all. -/
theorem authlost_no_reconnect_counterexample :
    Reach [WCmd.mk "a" [] true, WCmd.mk "b" [] true] (initState [0, 1] 1)
      ⟨[], [WorkerPhase.gotResp 1 (some "ok")], [0], [0],
        [Event.write 0 0, Event.taskDone 0 0, Event.settleError 0,
          Event.write 0 1]⟩ ∧
    Event.settleError 0 ∈ ([Event.write 0 0, Event.taskDone 0 0,
      Event.settleError 0, Event.write 0 1] : List Event) ∧
    Event.write 0 1 ∈ ([Event.write 0 0, Event.taskDone 0 0,
      Event.settleError 0, Event.write 0 1] : List Event) ∧
    reconnectCount [Event.write 0 0, Event.taskDone 0 0, Event.settleError 0,
      Event.write 0 1] = 0 := by
  refine ⟨?_, by decide, by decide, rfl⟩
  have h1 : Step [WCmd.mk "a" [] true, WCmd.mk "b" [] true]
      ⟨[0, 1], [WorkerPhase.idle], [], [], []⟩
      ⟨[1], [WorkerPhase.gotCmd 0], [], [], []⟩ :=
    Step.dequeue ⟨[0, 1], [WorkerPhase.idle], [], [], []⟩ 0 0 [1] rfl rfl
  have h2 : Step [WCmd.mk "a" [] true, WCmd.mk "b" [] true]
      ⟨[1], [WorkerPhase.gotCmd 0], [], [], []⟩
      ⟨[1], [WorkerPhase.toSend 0], [], [], []⟩ :=
    Step.depsReady ⟨[1], [WorkerPhase.gotCmd 0], [], [], []⟩ 0 0 rfl
      (by intro d hd; cases hd)
  have h3 : Step [WCmd.mk "a" [] true, WCmd.mk "b" [] true]
      ⟨[1], [WorkerPhase.toSend 0], [], [], []⟩
      ⟨[1], [WorkerPhase.gotResp 0 none], [], [], [Event.write 0 0]⟩ :=
    Step.sendReturn ⟨[1], [WorkerPhase.toSend 0], [], [], []⟩ 0 0 none rfl
  have h4 : Step [WCmd.mk "a" [] true, WCmd.mk "b" [] true]
      ⟨[1], [WorkerPhase.gotResp 0 none], [], [], [Event.write 0 0]⟩
      ⟨[1], [WorkerPhase.doneTask 0 none], [], [],
        [Event.write 0 0, Event.taskDone 0 0]⟩ :=
    Step.taskDoneOk ⟨[1], [WorkerPhase.gotResp 0 none], [], [],
      [Event.write 0 0]⟩ 0 0 none rfl
  have h5 : Step [WCmd.mk "a" [] true, WCmd.mk "b" [] true]
      ⟨[1], [WorkerPhase.doneTask 0 none], [], [],
        [Event.write 0 0, Event.taskDone 0 0]⟩
      ⟨[1], [WorkerPhase.idle], [0], [0],
        [Event.write 0 0, Event.taskDone 0 0, Event.settleError 0]⟩ := by
    have he : settleCmd [WCmd.mk "a" [] true, WCmd.mk "b" [] true]
        (setWorker ⟨[1], [WorkerPhase.doneTask 0 none], [], [],
          [Event.write 0 0, Event.taskDone 0 0]⟩ 0 .idle) 0 (.settleError 0) =
        ⟨[1], [WorkerPhase.idle], [0], [0],
          [Event.write 0 0, Event.taskDone 0 0, Event.settleError 0]⟩ := by
      rw [settleCmd, if_pos]
      · rfl
      · exact ⟨rfl, by decide⟩
    rw [← he]
    exact Step.settleAuthLost ⟨[1], [WorkerPhase.doneTask 0 none], [], [],
      [Event.write 0 0, Event.taskDone 0 0]⟩ 0 0 rfl
  have h6 : Step [WCmd.mk "a" [] true, WCmd.mk "b" [] true]
      ⟨[1], [WorkerPhase.idle], [0], [0],
        [Event.write 0 0, Event.taskDone 0 0, Event.settleError 0]⟩
      ⟨[], [WorkerPhase.gotCmd 1], [0], [0],
        [Event.write 0 0, Event.taskDone 0 0, Event.settleError 0]⟩ :=
    Step.dequeue ⟨[1], [WorkerPhase.idle], [0], [0],
      [Event.write 0 0, Event.taskDone 0 0, Event.settleError 0]⟩ 0 1 [] rfl rfl
  have h7 : Step [WCmd.mk "a" [] true, WCmd.mk "b" [] true]
      ⟨[], [WorkerPhase.gotCmd 1], [0], [0],
        [Event.write 0 0, Event.taskDone 0 0, Event.settleError 0]⟩
      ⟨[], [WorkerPhase.toSend 1], [0], [0],
        [Event.write 0 0, Event.taskDone 0 0, Event.settleError 0]⟩ :=
    Step.depsReady ⟨[], [WorkerPhase.gotCmd 1], [0], [0],
      [Event.write 0 0, Event.taskDone 0 0, Event.settleError 0]⟩ 0 1 rfl
      (by intro d hd; cases hd)
  have h8 : Step [WCmd.mk "a" [] true, WCmd.mk "b" [] true]
      ⟨[], [WorkerPhase.toSend 1], [0], [0],
        [Event.write 0 0, Event.taskDone 0 0, Event.settleError 0]⟩
      ⟨[], [WorkerPhase.gotResp 1 (some "ok")], [0], [0],
        [Event.write 0 0, Event.taskDone 0 0, Event.settleError 0,
          Event.write 0 1]⟩ :=
    Step.sendReturn ⟨[], [WorkerPhase.toSend 1], [0], [0],
      [Event.write 0 0, Event.taskDone 0 0, Event.settleError 0]⟩ 0 1
      (some "ok") rfl
  exact ((((((((Relation.ReflTransGen.refl.tail h1).tail h2).tail h3).tail
    h4).tail h5).tail h6).tail h7).tail h8)

/-- Witness for C8 (amended): with request id 1, the scripted response
`[frame id -1]` makes `send_command` return the null result, and a
worker holding command 0 with that null response settles it with the
authentication error, returns to idle, and the log gains no reconnect. -/
theorem authlost_settles_without_reconnect_witness :
    ((1 : Int) ≠ -1) ∧
    send_command 1 [108] (encodeFrames [((-1 : Int), ([] : List Nat))]) =
      .ok ⟨none, 2, format_packet [108] .COMMAND_PACKET 2
        ++ format_packet [] .DUMMY_PACKET 1002⟩ ∧
    (⟨[], [WorkerPhase.doneTask 0 none], [], [], []⟩ :
        PoolState).workers[0]? = some (WorkerPhase.doneTask 0 none) ∧
    (Step [WCmd.mk "a" [] true]
        ⟨[], [WorkerPhase.doneTask 0 none], [], [], []⟩
        (authLostNext [WCmd.mk "a" [] true]
          ⟨[], [WorkerPhase.doneTask 0 none], [], [], []⟩ 0 0) ∧
      (authLostNext [WCmd.mk "a" [] true]
        ⟨[], [WorkerPhase.doneTask 0 none], [], [], []⟩ 0 0).workers[0]? =
        some WorkerPhase.idle ∧
      reconnectCount (authLostNext [WCmd.mk "a" [] true]
        ⟨[], [WorkerPhase.doneTask 0 none], [], [], []⟩ 0 0).log =
        reconnectCount (⟨[], [WorkerPhase.doneTask 0 none], [], [], []⟩ :
          PoolState).log ∧
      (hasSlotW [WCmd.mk "a" [] true] 0 = true →
        0 ∈ (authLostNext [WCmd.mk "a" [] true]
          ⟨[], [WorkerPhase.doneTask 0 none], [], [], []⟩ 0 0).settled)) :=
  ⟨by decide,
    (authlost_settles_without_reconnect [WCmd.mk "a" [] true] 1 [108]
      (by decide)).1 [((-1 : Int), ([] : List Nat))] (by decide) (by decide),
    rfl,
    (authlost_settles_without_reconnect [WCmd.mk "a" [] true] 1 [108]
      (by decide)).2 ⟨[], [WorkerPhase.doneTask 0 none], [], [], []⟩ 0 0 rfl⟩

end Rcon
